import Mathlib

/-!
# SQLVM runtime built-in functions (core/vm/sqlvm/runtime)

A shallow embedding of `functions.go` and of the value model of
`instructions.go`, followed by the properties proved about them.

Conventions of the embedding:

* a Go byte is a natural number, a byte slice is a list of them, a nil
  slice is the empty list;
* a `uint64` is a natural number, reduced modulo `2 ^ 64` where the Go
  code can overflow;
* a Go function returning `(result, err)` returns both components, since
  Go hands both back to the caller whatever `err` is;
* a run-time failure of an index expression (`xs[i]` out of range) is the
  outcome `none` of an evaluator.
-/

namespace Sqlvm

/-! ## Collaborators that are not part of `runtime` -/

/-- One byte of a Go byte slice. -/
abbrev Byte := Nat

/-- Modelled from the spec: the arbitrary-precision decimal of the
type/arithmetic provider (package `decimal`, not among the sources). A
decimal is a coefficient and a power of ten: it denotes
`value * 10 ^ exp`. -/
structure Decimal where
  value : Int
  exp : Int
deriving DecidableEq, Repr

namespace Decimal

/-- The rational number a decimal denotes. -/
def toRat (d : Decimal) : ℚ := (d.value : ℚ) * (10 : ℚ) ^ d.exp

/-- Modelled from the spec: construction from an arbitrary-precision
integer and an exponent (`decimal.NewFromBigInt`). -/
def NewFromBigInt (v : Int) (e : Int) : Decimal := ⟨v, e⟩

/-- Modelled from the spec: construction from a signed 64-bit integer and
an exponent (`decimal.New`). -/
def New (v : Int) (e : Int) : Decimal := ⟨v, e⟩

/-- Modelled from the spec: bring a decimal to the exponent `e`; towards a
smaller exponent this is exact, towards a larger one it truncates. -/
def rescale (d : Decimal) (e : Int) : Decimal :=
  if d.exp = e then d
  else if e > d.exp then ⟨Int.tdiv d.value (10 ^ (e - d.exp).toNat), e⟩
  else ⟨d.value * 10 ^ (d.exp - e).toNat, e⟩

/-- Modelled from the spec: decimal subtraction (`Decimal.Sub`), carried
out at the smaller of the two exponents. -/
def Sub (d d2 : Decimal) : Decimal :=
  let baseExp := min d.exp d2.exp
  ⟨(d.rescale baseExp).value - (d2.rescale baseExp).value, baseExp⟩

/-- Three-way comparison of two integers, as `big.Int.Cmp`. -/
def cmpInt (a b : Int) : Int := if a < b then -1 else if a = b then 0 else 1

/-- Modelled from the spec: decimal comparison (`Decimal.Cmp`): `-1`, `0`
or `1`, carried out at the smaller of the two exponents. -/
def Cmp (d d2 : Decimal) : Int :=
  if d.exp = d2.exp then cmpInt d.value d2.value
  else
    let baseExp := min d.exp d2.exp
    cmpInt (d.rescale baseExp).value (d2.rescale baseExp).value

end Decimal

/-- Modelled from the spec: the named constant equal to 257 for the
block-hash window boundary (`dec.Dec257`, not among the sources). -/
def Dec257 : Decimal := ⟨257, 0⟩

/-- Error kinds of the evaluators (package `errors` and the providers'
conversion failures). -/
inductive ErrorCode where
  | InvalidOperandNum
  | NumericConversion
  | NumericParse
deriving DecidableEq, Repr

/-- Modelled from the spec: `ast.DecimalToUint64`, not among the sources:
converts an arbitrary-precision decimal to an unsigned 64-bit integer,
failing if out of range or non-integral. -/
def DecimalToUint64 (d : Decimal) : Except ErrorCode Nat :=
  if 0 ≤ d.exp then
    let v := d.value * 10 ^ d.exp.toNat
    if 0 ≤ v ∧ v < 2 ^ 64 then .ok v.toNat else .error .NumericConversion
  else
    let p : Int := 10 ^ (-d.exp).toNat
    if d.value % p = 0 then
      let v := d.value / p
      if 0 ≤ v ∧ v < 2 ^ 64 then .ok v.toNat else .error .NumericConversion
    else .error .NumericConversion

/-- Major classification of a type tag (`ast.DataTypeMajor`); `Unknown` is
the zero value, the others are the ones `functions.go` names. -/
inductive DataTypeMajor where
  | Unknown
  | Uint
  | Address
  | FixedBytes
  | DynamicBytes
deriving DecidableEq, Repr

/-- Modelled from the spec: a type tag composed from a major and a minor
classification (`ast.DataType`). -/
structure DataType where
  major : DataTypeMajor
  minor : Nat
deriving DecidableEq, Repr

/-- Modelled from the spec: compose a type tag from a major/minor
classification (`ast.ComposeDataType`). -/
def ComposeDataType (major : DataTypeMajor) (minor : Nat) : DataType := ⟨major, minor⟩

/-- A 32-byte digest (`common.Hash`). -/
structure Hash where
  bytes : List Byte
  size : bytes.length = 32

/-- The byte slice of a digest (`Hash.Bytes`). -/
def Hash.Bytes (h : Hash) : List Byte := h.bytes

/-- A 20-byte account address (`common.Address`). -/
structure Address where
  bytes : List Byte
  size : bytes.length = 20

/-- The byte slice of an address (`Address.Bytes`). -/
def Address.Bytes (a : Address) : List Byte := a.bytes

/-- The executing contract call: its immediate caller and input payload. -/
structure Contract where
  CallerAddress : Address
  Input : List Byte

/-- The state backend: account nonce lookup by address. -/
structure Storage where
  GetNonce : Address → Nat

/-- Modelled from the spec: the execution context (`common.Context`, not
among the sources) with the fields section 6 of the specification lists;
`RandCallIndex` is the only field an evaluator writes. -/
structure Context where
  BlockNumber : Int
  Time : Int
  Coinbase : Address
  GasLimit : Nat
  Origin : Address
  Contract : Contract
  Storage : Storage
  GetHash : Nat → Hash
  Randomness : List Byte
  RandCallIndex : Nat

/-! ## Value model (`instructions.go`) -/

/-- Raw: the basic operand unit, with a numeric value or a byte slice. The
numeric field is the decimal that `functions.go` stores in it. -/
structure Raw where
  MajorType : DataTypeMajor := .Unknown
  MinorType : Nat := 0
  Value : Decimal := ⟨0, 0⟩
  Bytes : List Byte := []
deriving DecidableEq, Repr

/-- Modelled from the spec: `Raw.clone`, not among the sources: duplicates
a `Raw` into an independent copy (deep copy of the byte buffer, value copy
of the decimal). -/
def Raw.clone (r : Raw) : Raw :=
  { MajorType := r.MajorType, MinorType := r.MinorType, Value := r.Value, Bytes := r.Bytes }

/-- Tuple is a collection of Raw; the nil tuple is the empty list. -/
abbrev Tuple := List Raw

/-- Operand: array-based value with the meta describing its elements. -/
structure Operand where
  IsImmediate : Bool := false
  Meta : List DataType := []
  Data : List Tuple := []
  RegisterIndex : Nat := 0
deriving DecidableEq, Repr

/-! ## Function identifiers and evaluators (`functions.go`) -/

def BLOCKHASH : Nat := 0
def BLOCKNUMBER : Nat := 1
def BLOCKTIMESTAMP : Nat := 2
def BLOCKCOINBASE : Nat := 3
def BLOCKGASLIMIT : Nat := 4
def MSGSENDER : Nat := 5
def MSGDATA : Nat := 6
def TXORIGIN : Nat := 7
def NOW : Nat := 8
def RAND : Nat := 9

/-- What an evaluator hands back: the two Go return values and the context
as the call leaves it. -/
structure FnReturn where
  result : Option Operand
  err : Option ErrorCode
  ctx : Context

/-- The evaluator type `fn`; `none` is a run-time index failure. -/
abbrev fn := Context → List Operand → Nat → Option FnReturn

/-- The loop of `assignFuncResult`: `k` iterations remain, `i` is the loop
variable, `data` the slice being filled, `s` the state the producer
closure reads and writes. -/
def assignLoop {σ : Type} (f : σ → Raw × σ) : Nat → Nat → List Tuple → σ → List Tuple × σ
  | 0, _, data, s => (data, s)
  | k + 1, i, data, s =>
    let p := f s
    assignLoop f k (i + 1) (data.set i [p.1]) p.2

/-- Function `assignFuncResult`: allocate `length` nil rows, then call the producer
once per row in ascending order. -/
def assignFuncResult {σ : Type} (meta : List DataType) (f : σ → Raw × σ) (length : Nat)
    (s : σ) : Operand × σ :=
  let p := assignLoop f length 0 (List.replicate length []) s
  ({ Meta := meta, Data := p.1 }, p.2)

/-- The 32 zero bytes of `make([]byte, 32)`. -/
def zeroBytes32 : List Byte := List.replicate 32 0

/-- Function `evalBlockHash`, with both return values, `r` and `err`. -/
def evalBlockHash (ctx : Context) (num cur : Decimal) : Raw × Option ErrorCode :=
  let r : Raw := { Bytes := zeroBytes32 }
  let cNum := cur.Sub Dec257
  if num.Cmp cNum > 0 ∧ num.Cmp cur < 0 then
    match DecimalToUint64 num with
    | .error e => (r, some e)
    | .ok num64 => ({ r with Bytes := (ctx.GetHash num64).Bytes }, none)
  else (r, none)

/-- The per-row loop of `fnBlockHash` for a non-immediate operand: `k`
iterations remain, `i` is the loop variable, `src` is `ops[0].Data`,
`data` is `result.Data`. The outcome is the data as the loop leaves it
and the error, or `none` when an index expression fails. -/
def blockHashLoop (ctx : Context) (src : List Tuple) (cNum : Decimal) :
    Nat → Nat → List Tuple → Option (List Tuple × Option ErrorCode)
  | 0, _, data => some (data, none)
  | k + 1, i, data =>
    match src[i]? with
    | none => none
    | some row =>
      match row[0]? with
      | none => none
      | some x =>
        let p := evalBlockHash ctx x.Value cNum
        match p.2 with
        | some e => some (data, some e)
        | none => blockHashLoop ctx src cNum k (i + 1) (data.set i [p.1])

/-- Evaluator `fnBlockHash`: the arity check, then the immediate branch (one
evaluation, replicated) or the per-row loop. -/
def fnBlockHash : fn := fun ctx ops length =>
  match ops with
  | [op] =>
    let meta := [ComposeDataType .FixedBytes 3]
    let cNum := Decimal.NewFromBigInt ctx.BlockNumber 0
    if op.IsImmediate then
      match op.Data[0]? with
      | none => none
      | some row =>
        match row[0]? with
        | none => none
        | some x =>
          let p := evalBlockHash ctx x.Value cNum
          match p.2 with
          | some e => some ⟨none, some e, ctx⟩
          | none =>
            some ⟨some (assignFuncResult meta (fun (_ : Unit) => (p.1.clone, ())) length ()).1,
              none, ctx⟩
    else
      match blockHashLoop ctx op.Data cNum length 0 (List.replicate length []) with
      | none => none
      | some (data, err) => some ⟨some { Meta := meta, Data := data }, err, ctx⟩
  | _ => some ⟨none, some .InvalidOperandNum, ctx⟩

/-- Evaluator `fnBlockNumber`. -/
def fnBlockNumber : fn := fun ctx _ length =>
  let r : Raw := { Value := Decimal.NewFromBigInt ctx.BlockNumber 0 }
  some ⟨some (assignFuncResult [ComposeDataType .Uint 31]
    (fun (_ : Unit) => (r.clone, ())) length ()).1, none, ctx⟩

/-- Evaluator `fnBlockTimestamp`. -/
def fnBlockTimestamp : fn := fun ctx _ length =>
  let r : Raw := { Value := Decimal.NewFromBigInt ctx.Time 0 }
  some ⟨some (assignFuncResult [ComposeDataType .Uint 31]
    (fun (_ : Unit) => (r.clone, ())) length ()).1, none, ctx⟩

/-- Evaluator `fnBlockCoinBase`. -/
def fnBlockCoinBase : fn := fun ctx _ length =>
  let r : Raw := { Bytes := ctx.Coinbase.Bytes }
  some ⟨some (assignFuncResult [ComposeDataType .Address 0]
    (fun (_ : Unit) => (r.clone, ())) length ()).1, none, ctx⟩

/-- The constant `math.MaxInt64`. -/
def MaxInt64 : Nat := 2 ^ 63 - 1

/-- The Go conversion `int64(x)` of a `uint64`: the two's complement reading. -/
def toInt64 (x : Nat) : Int :=
  if x % 2 ^ 64 < 2 ^ 63 then (x % 2 ^ 64 : Nat) else ((x % 2 ^ 64 : Nat) : Int) - 2 ^ 64

/-- The text `fmt.Sprint` gives a `uint64`: its decimal digits, most significant first. -/
def fmtSprint (x : Nat) : List Char := Nat.toDigits 10 x

/-- One step of reading a run of decimal digits, most significant first. -/
def digitStep (acc : Option Nat) (c : Char) : Option Nat :=
  match acc with
  | none => none
  | some a => if c.isDigit then some (a * 10 + (c.toNat - 48)) else none

/-- The number a run of decimal digits denotes; `none` if a character is
not a digit. -/
def parseDigits (cs : List Char) : Option Nat := cs.foldl digitStep (some 0)

/-- Modelled from the spec: construction of a decimal from its base-10
textual form (`decimal.NewFromString`, not among the sources): an optional
sign, digits, and an optional fraction after a point; anything else is a
parse failure. -/
def Decimal.NewFromString (s : List Char) : Except ErrorCode Decimal :=
  let neg := s.head? = some '-'
  let body := if s.head? = some '-' ∨ s.head? = some '+' then s.tail else s
  let intPart := body.takeWhile (fun c => c != '.')
  let fracPart := (body.dropWhile (fun c => c != '.')).tail
  if intPart ++ fracPart = [] then .error .NumericParse
  else
    match parseDigits (intPart ++ fracPart) with
    | none => .error .NumericParse
    | some v => .ok ⟨if neg then -(v : Int) else (v : Int), -(fracPart.length : Int)⟩

/-- Evaluator `fnBlockGasLimit`: the textual construction above `MaxInt64`,
the direct one otherwise. -/
def fnBlockGasLimit : fn := fun ctx _ length =>
  let r : Raw := {}
  let build (r : Raw) : Option FnReturn :=
    some ⟨some (assignFuncResult [ComposeDataType .Uint 7]
      (fun (_ : Unit) => (r.clone, ())) length ()).1, none, ctx⟩
  if ctx.GasLimit > MaxInt64 then
    match Decimal.NewFromString (fmtSprint ctx.GasLimit) with
    | .error e => some ⟨none, some e, ctx⟩
    | .ok v => build { r with Value := v }
  else
    build { r with Value := Decimal.New (toInt64 ctx.GasLimit) 0 }

/-- Evaluator `fnMsgSender`. -/
def fnMsgSender : fn := fun ctx _ length =>
  let r : Raw := { Bytes := ctx.Contract.CallerAddress.Bytes }
  some ⟨some (assignFuncResult [ComposeDataType .Address 0]
    (fun (_ : Unit) => (r.clone, ())) length ()).1, none, ctx⟩

/-- Evaluator `fnMsgData`. -/
def fnMsgData : fn := fun ctx _ length =>
  let r : Raw := { Bytes := ctx.Contract.Input }
  some ⟨some (assignFuncResult [ComposeDataType .DynamicBytes 0]
    (fun (_ : Unit) => (r.clone, ())) length ()).1, none, ctx⟩

/-- Evaluator `fnTxOrigin`. -/
def fnTxOrigin : fn := fun ctx _ length =>
  let r : Raw := { Bytes := ctx.Origin.Bytes }
  some ⟨some (assignFuncResult [ComposeDataType .Address 0]
    (fun (_ : Unit) => (r.clone, ())) length ()).1, none, ctx⟩

/-- The constant `binary.MaxVarintLen64`. -/
def MaxVarintLen64 : Nat := 10

/-- The loop of `binary.PutUvarint`, writing from index `i` on; a `uint64`
needs at most `MaxVarintLen64` bytes, which bounds the iterations. -/
def putUvarintLoop : Nat → List Byte → Nat → Nat → List Byte
  | 0, buf, _, _ => buf
  | k + 1, buf, i, x =>
    if x ≥ 0x80 then putUvarintLoop k (buf.set i (x % 256 ||| 0x80)) (i + 1) (x >>> 7)
    else buf.set i (x % 256)

/-- Function `binary.PutUvarint`: encode `x` into the front of `buf`, leaving the
bytes after the encoding as they were. -/
def PutUvarint (buf : List Byte) (x : Nat) : List Byte :=
  putUvarintLoop MaxVarintLen64 buf 0 x

/-- The providers `fnRand` calls that are not among the sources: the hash
primitive behind `crypto.Keccak256` and `ast.DecimalDecode`, which decodes
a byte sequence into a numeric value under a type tag (value and error). -/
structure Provider where
  keccak : List Byte → List Byte
  DecimalDecode : DataType → List Byte → Decimal × Option ErrorCode

/-- Modelled from the spec: `crypto.Keccak256`, not among the sources:
the digest of its arguments written to the hash one after the other. -/
def Provider.Keccak256 (P : Provider) (data : List (List Byte)) : List Byte :=
  P.keccak data.flatten

/-- The state the producer closure of `fnRand` captures and writes: the
buffer `binaryUsedIndex` and the context. -/
structure RandState where
  binaryUsedIndex : List Byte
  ctx : Context

/-- The four byte slices a `RAND` row passes to the hash, for the context
and the counter buffer of that row. -/
def randHashInput (ctx : Context) (binaryOriginNonce binaryUsedIndex : List Byte) :
    List (List Byte) :=
  [ctx.Randomness, ctx.Origin.Bytes, binaryOriginNonce, binaryUsedIndex]

/-- The producer closure of `fnRand`. -/
def randFn (P : Provider) (binaryOriginNonce : List Byte) (vType : DataType)
    (s : RandState) : Raw × RandState :=
  let buf := PutUvarint s.binaryUsedIndex s.ctx.RandCallIndex
  let ctx : Context := { s.ctx with RandCallIndex := (s.ctx.RandCallIndex + 1) % 2 ^ 64 }
  let hash := P.Keccak256 (randHashInput ctx binaryOriginNonce buf)
  let v := (P.DecimalDecode vType hash).1
  ({ Value := v }, ⟨buf, ctx⟩)

/-- Evaluator `fnRand`: the nonce buffer, the counter buffer, and the
producer closure handed to `assignFuncResult`. -/
def fnRand (P : Provider) : fn := fun ctx _ length =>
  let binaryOriginNonce :=
    PutUvarint (List.replicate MaxVarintLen64 0) (ctx.Storage.GetNonce ctx.Origin)
  let binaryUsedIndex : List Byte := List.replicate MaxVarintLen64 0
  let vType := ComposeDataType .Uint 31
  let p := assignFuncResult [ComposeDataType .Uint 31] (randFn P binaryOriginNonce vType)
    length ⟨binaryUsedIndex, ctx⟩
  some ⟨some p.1, none, p.2.ctx⟩

/-- The keyed elements of the `fnTable` literal, in source order. -/
def fnTableEntries (P : Provider) : List (Nat × fn) :=
  [ (BLOCKHASH, fnBlockHash),
    (BLOCKNUMBER, fnBlockNumber),
    (BLOCKTIMESTAMP, fnBlockTimestamp),
    (NOW, fnBlockTimestamp),
    (BLOCKCOINBASE, fnBlockCoinBase),
    (BLOCKGASLIMIT, fnBlockGasLimit),
    (MSGSENDER, fnMsgSender),
    (MSGDATA, fnMsgData),
    (TXORIGIN, fnTxOrigin),
    (RAND, fnRand P) ]

/-- The table `fnTable`: a keyed slice literal has one more element than its largest
key; an index no element names holds nil. -/
def fnTable (P : Provider) : List (Option fn) :=
  let es := fnTableEntries P
  es.foldl (fun t e => t.set e.1 (some e.2))
    (List.replicate ((es.map Prod.fst).foldl max 0 + 1) none)

/-! ## The rows a loop produces, as a recursion on the rows -/

/-- The rows `k` successive calls of a producer give, and the state they
leave. -/
def produceRows {σ : Type} (f : σ → Raw × σ) : Nat → σ → List Tuple × σ
  | 0, s => ([], s)
  | k + 1, s => ([(f s).1] :: (produceRows f k (f s).2).1, (produceRows f k (f s).2).2)

/-- The rows the per-row loop of `fnBlockHash` fills, from row `i` of the
operand on for `k` rows, up to the first failing conversion, and the error
that stopped it; `none` when an index expression fails first. -/
def blockHashRows (ctx : Context) (src : List Tuple) (cNum : Decimal) :
    Nat → Nat → Option (List Tuple × Option ErrorCode)
  | 0, _ => some ([], none)
  | k + 1, i =>
    match src[i]? with
    | none => none
    | some row =>
      match row[0]? with
      | none => none
      | some x =>
        match (evalBlockHash ctx x.Value cNum).2 with
        | some e => some ([], some e)
        | none =>
          (blockHashRows ctx src cNum k (i + 1)).map
            (fun q => ([(evalBlockHash ctx x.Value cNum).1] :: q.1, q.2))

/-- The shape of a result of `n` rows: `n` rows, each of width 1, under a
`Meta` of length 1. -/
def Operand.hasShape (op : Operand) (n : Nat) : Prop :=
  op.Data.length = n ∧ (∀ row ∈ op.Data, row.length = 1) ∧ op.Meta.length = 1

/-- The value the specification's table gives a constant-strategy function:
block height, block time, coinbase bytes, gas limit, caller bytes, input
payload, origin bytes; `none` for `BLOCKHASH` and `RAND`. -/
def specConstantValue (ctx : Context) (id : Nat) : Option Raw :=
  if id = BLOCKNUMBER then some { Value := ⟨ctx.BlockNumber, 0⟩ }
  else if id = BLOCKTIMESTAMP ∨ id = NOW then some { Value := ⟨ctx.Time, 0⟩ }
  else if id = BLOCKCOINBASE then some { Bytes := ctx.Coinbase.Bytes }
  else if id = BLOCKGASLIMIT then some { Value := ⟨(ctx.GasLimit : Int), 0⟩ }
  else if id = MSGSENDER then some { Bytes := ctx.Contract.CallerAddress.Bytes }
  else if id = MSGDATA then some { Bytes := ctx.Contract.Input }
  else if id = TXORIGIN then some { Bytes := ctx.Origin.Bytes }
  else none

/-- The counter buffer `binaryUsedIndex` after `k` rows of a `RAND` call
that found the buffer `buf` and the counter `c`: each row encodes the
counter into the buffer and advances the counter modulo `2 ^ 64`. -/
def usedIndexAfter (buf : List Byte) (c : Nat) : Nat → List Byte
  | 0 => buf
  | k + 1 => usedIndexAfter (PutUvarint buf c) ((c + 1) % 2 ^ 64) k

/-- The number of bytes the loop of `binary.PutUvarint` writes for `x`,
with the same bound on the iterations. -/
def uvarintLen : Nat → Nat → Nat
  | 0, _ => 0
  | k + 1, x => if x ≥ 0x80 then uvarintLen k (x >>> 7) + 1 else 1

/-! ## The specification's words for the bytes a `RAND` row hashes -/

/-- The unsigned varint encoding of `x` in the specification's sense: the
base-128 digits of `x`, least significant first, every byte but the last
with its high bit set; at most `k` bytes. -/
def specUvarintLoop : Nat → Nat → List Byte
  | 0, _ => []
  | k + 1, x => if x < 128 then [x] else (x % 128 + 128) :: specUvarintLoop k (x / 128)

/-- The unsigned varint encoding of a `uint64` in the specification's
sense: at most `MaxVarintLen64` bytes. -/
def specUvarint (x : Nat) : List Byte := specUvarintLoop MaxVarintLen64 x

/-- The byte string the specification says a `RAND` row hashes:
`S`, `A`, `varint(n)`, `varint(i)` one after the other. -/
def specRandHashed (S A : List Byte) (n i : Nat) : List Byte :=
  S ++ A ++ specUvarint n ++ specUvarint i

/-- A byte string followed by zero bytes up to the length `n`. -/
def zeroPadded (n : Nat) (bs : List Byte) : List Byte :=
  bs ++ List.replicate (n - bs.length) 0

/-- Modelled from the spec: the byte width a `Uint` or `FixedBytes` type
tag denotes under the type provider's convention (`ast`, not among the
sources), by which the minor classification is the width in bytes less
one: `Uint` with minor 7 is the 64-bit type, with minor 31 the 256-bit
type. -/
def DataType.byteWidth (t : DataType) : Nat := t.minor + 1

/-- The one height an index expression `Data[i][0].Value` reads from the
rows of an operand; `none` when the index expression fails. -/
def heightAt (src : List Tuple) (i : Nat) : Option Decimal :=
  (src[i]?.bind (fun row => row[0]?)).map (fun x => x.Value)

/-- The value the varint at index `i` of `buf` denotes, read as the loop of
`binary.Uvarint` reads it (without its overflow check): bytes with the high
bit set continue the number, the first byte without it ends it. -/
def uvarintReadLoop : Nat → List Byte → Nat → Nat
  | 0, _, _ => 0
  | k + 1, buf, i =>
    match buf[i]? with
    | none => 0
    | some b => if b < 0x80 then b else b % 128 + 128 * uvarintReadLoop k buf (i + 1)

/-- The byte string an invocation of the producer of `fnRand` on the state
`s` hands to the hash: the seed, the origin, the nonce buffer and the
counter buffer after the counter `s.ctx.RandCallIndex` is encoded into it. -/
def randHashed (binaryOriginNonce : List Byte) (s : RandState) : List Byte :=
  (randHashInput { s.ctx with RandCallIndex := (s.ctx.RandCallIndex + 1) % 2 ^ 64 }
    binaryOriginNonce (PutUvarint s.binaryUsedIndex s.ctx.RandCallIndex)).flatten

/-- The state on which the producer of `fnRand` is invoked for row `k` of a
call that found the counter at `c`: the counter buffer the rows before it
left and the counter advanced `k` times; the counter value the invocation
consumes is its `ctx.RandCallIndex`. -/
def randRowState (ctx : Context) (c k : Nat) : RandState :=
  ⟨usedIndexAfter (List.replicate MaxVarintLen64 0) c k,
    { ctx with RandCallIndex := (c + k) % 2 ^ 64 }⟩

/-- A sequence of `RAND` calls on one context, the requested row counts
`ns` in order, each call on the context the call before it left: the
returns of the calls. -/
def fnRandCalls (P : Provider) : Context → List Nat → List FnReturn
  | _, [] => []
  | ctx, n :: ns =>
    match fnRand P ctx [] n with
    | none => []
    | some r => r :: fnRandCalls P r.ctx ns

/-! ## Concrete inputs the properties are evaluated at -/

/-- A digest all of whose bytes are `b`. -/
def constHash (b : Byte) : Hash := ⟨List.replicate 32 b, by simp⟩

/-- An address all of whose bytes are `b`. -/
def constAddress (b : Byte) : Address := ⟨List.replicate 20 b, by simp⟩

/-- A context at block height `cur` whose every historical hash is 32
bytes `1`, with gas limit `gas` and randomness call counter `idx`. -/
def sampleContext (cur : Int) (gas idx : Nat) : Context :=
  { BlockNumber := cur, Time := 1700000000, Coinbase := constAddress 2, GasLimit := gas,
    Origin := constAddress 3, Contract := ⟨constAddress 4, [5, 6, 7]⟩,
    Storage := ⟨fun _ => 9⟩, GetHash := fun _ => constHash 1,
    Randomness := [8, 8], RandCallIndex := idx }

/-- A column operand of two heights, 5 and -1. -/
def sampleColumn : Operand :=
  { IsImmediate := false, Meta := [ComposeDataType .Uint 31],
    Data := [[{ Value := ⟨5, 0⟩ }], [{ Value := ⟨-1, 0⟩ }]] }

/-- A column operand of two heights, 5 and 20. -/
def sampleColumnOk : Operand :=
  { IsImmediate := false, Meta := [ComposeDataType .Uint 31],
    Data := [[{ Value := ⟨5, 0⟩ }], [{ Value := ⟨20, 0⟩ }]] }

/-- A provider whose digest is the last 32 bytes of its input and whose
decoding reads the bytes as a big-endian number. -/
def sampleProvider : Provider :=
  ⟨fun bs => bs.drop (bs.length - 32),
    fun _ bs => (⟨(bs.foldl (fun a b => a * 256 + b) 0 : Nat), 0⟩, none)⟩

/-- A context whose hash lookup tells height `n` from every other one. -/
def markContext (n : Nat) : Context :=
  { sampleContext 0 0 0 with GetHash := fun k => if k = n then constHash 1 else constHash 0 }

/-- An immediate operand holding the height -1. -/
def sampleImmediateNegative : Operand :=
  { IsImmediate := true, Meta := [ComposeDataType .Uint 31], Data := [[{ Value := ⟨-1, 0⟩ }]] }


/-! ## Decimal arithmetic denotes rational arithmetic -/

theorem Decimal.rescale_exp (d : Decimal) (e : Int) : (d.rescale e).exp = e := by
  unfold Decimal.rescale
  split_ifs with h1 h2 <;> simp [h1]

theorem Decimal.rescale_toRat (d : Decimal) (e : Int) (h : e ≤ d.exp) :
    (d.rescale e).toRat = d.toRat := by
  unfold Decimal.rescale
  split_ifs with h1 h2
  · rfl
  · omega
  · have hk : ((d.exp - e).toNat : Int) = d.exp - e := Int.toNat_of_nonneg (by omega)
    have h10 : (10 : ℚ) ≠ 0 := by norm_num
    simp only [Decimal.toRat]
    push_cast
    rw [mul_assoc, ← zpow_natCast, hk, ← zpow_add₀ h10]
    congr 2
    omega

theorem Decimal.toRat_lt_of_exp_eq (a b : Decimal) (h : a.exp = b.exp) :
    a.toRat < b.toRat ↔ a.value < b.value := by
  have hp : (0 : ℚ) < (10 : ℚ) ^ b.exp := zpow_pos (by norm_num) _
  simp only [Decimal.toRat, h]
  rw [mul_lt_mul_right hp]
  exact Int.cast_lt

theorem Decimal.cmpInt_eq (a b : Decimal) (h : a.exp = b.exp) :
    Decimal.cmpInt a.value b.value =
      if a.toRat < b.toRat then -1 else if b.toRat < a.toRat then 1 else 0 := by
  simp only [Decimal.toRat_lt_of_exp_eq a b h, Decimal.toRat_lt_of_exp_eq b a h.symm]
  unfold Decimal.cmpInt
  split_ifs <;> first | rfl | omega

theorem Decimal.Cmp_eq (d d2 : Decimal) :
    d.Cmp d2 = if d.toRat < d2.toRat then -1 else if d2.toRat < d.toRat then 1 else 0 := by
  by_cases h : d.exp = d2.exp
  · rw [Decimal.Cmp, if_pos h]
    exact Decimal.cmpInt_eq d d2 h
  · rw [Decimal.Cmp, if_neg h]
    have hk := Decimal.cmpInt_eq (d.rescale (min d.exp d2.exp)) (d2.rescale (min d.exp d2.exp))
      (by rw [Decimal.rescale_exp, Decimal.rescale_exp])
    rw [Decimal.rescale_toRat _ _ (min_le_left _ _),
      Decimal.rescale_toRat _ _ (min_le_right _ _)] at hk
    exact hk

theorem Decimal.Cmp_pos_iff (d d2 : Decimal) : d.Cmp d2 > 0 ↔ d2.toRat < d.toRat := by
  rw [Decimal.Cmp_eq]
  split_ifs with h1 h2
  · constructor
    · intro h; omega
    · intro h; exact absurd h (not_lt.mpr h1.le)
  · simp [h2]
  · simp [h2]

theorem Decimal.Cmp_neg_iff (d d2 : Decimal) : d.Cmp d2 < 0 ↔ d.toRat < d2.toRat := by
  rw [Decimal.Cmp_eq]
  split_ifs with h1 h2
  · simp [h1]
  · simp [h1]
  · simp [h1]

theorem Decimal.Sub_toRat (d d2 : Decimal) : (d.Sub d2).toRat = d.toRat - d2.toRat := by
  have h1 := Decimal.rescale_toRat d (min d.exp d2.exp) (min_le_left _ _)
  have h2 := Decimal.rescale_toRat d2 (min d.exp d2.exp) (min_le_right _ _)
  rw [← h1, ← h2]
  simp only [Decimal.Sub, Decimal.toRat, Decimal.rescale_exp]
  push_cast
  ring

theorem Dec257_toRat : Dec257.toRat = 257 := by
  simp [Dec257, Decimal.toRat]

/-- The window test of `evalBlockHash`, read on the numbers the decimals
denote. -/
theorem window_iff (num cur : Decimal) :
    (num.Cmp (cur.Sub Dec257) > 0 ∧ num.Cmp cur < 0) ↔
      (cur.toRat - 257 < num.toRat ∧ num.toRat < cur.toRat) := by
  rw [Decimal.Cmp_pos_iff, Decimal.Cmp_neg_iff, Decimal.Sub_toRat, Dec257_toRat]


/-! ## The conversion to `uint64` -/

theorem Decimal.toRat_of_exp_nonneg (d : Decimal) (h : 0 ≤ d.exp) :
    d.toRat = ((d.value * 10 ^ d.exp.toNat : Int) : ℚ) := by
  have hk : (d.exp.toNat : Int) = d.exp := Int.toNat_of_nonneg h
  simp only [Decimal.toRat]
  push_cast
  rw [← zpow_natCast, hk]

theorem Decimal.toRat_mul_of_exp_neg (d : Decimal) (h : ¬ 0 ≤ d.exp) :
    d.toRat * (((10 : Int) ^ (-d.exp).toNat : Int) : ℚ) = (d.value : ℚ) := by
  have hk : ((-d.exp).toNat : Int) = -d.exp := Int.toNat_of_nonneg (by omega)
  have h10 : (10 : ℚ) ≠ 0 := by norm_num
  simp only [Decimal.toRat]
  push_cast
  rw [mul_assoc, ← zpow_natCast, hk, ← zpow_add₀ h10]
  simp

theorem intRange_iff (v : Int) (n : Nat) :
    ((if 0 ≤ v ∧ v < 2 ^ 64 then (.ok v.toNat : Except ErrorCode Nat)
      else .error .NumericConversion) = .ok n) ↔ (n < 2 ^ 64 ∧ v = (n : Int)) := by
  split_ifs with h
  · constructor
    · intro e
      injection e with e
      omega
    · rintro ⟨_, e⟩
      congr 1
      omega
  · constructor
    · intro e; cases e
    · rintro ⟨h1, e⟩
      exact absurd ⟨by omega, by omega⟩ h

theorem DecimalToUint64_ok_iff (d : Decimal) (n : Nat) :
    DecimalToUint64 d = .ok n ↔ (n < 2 ^ 64 ∧ d.toRat = (n : ℚ)) := by
  unfold DecimalToUint64
  by_cases h : 0 ≤ d.exp
  · rw [if_pos h]
    simp only []
    rw [intRange_iff, Decimal.toRat_of_exp_nonneg d h]
    constructor
    · rintro ⟨h1, h2⟩; exact ⟨h1, by rw [h2]; simp⟩
    · rintro ⟨h1, h2⟩; exact ⟨h1, by exact_mod_cast h2⟩
  · rw [if_neg h]
    simp only []
    have hm := Decimal.toRat_mul_of_exp_neg d h
    have hp : (0 : Int) < 10 ^ (-d.exp).toNat := by positivity
    by_cases hd : d.value % 10 ^ (-d.exp).toNat = 0
    · rw [if_pos hd, intRange_iff]
      obtain ⟨q, hq⟩ := Int.dvd_of_emod_eq_zero hd
      have hq' : d.value / 10 ^ (-d.exp).toNat = q := by
        rw [hq]; exact Int.mul_ediv_cancel_left _ hp.ne'
      have hr : d.toRat = (q : ℚ) := by
        have hp' : (((10 : Int) ^ (-d.exp).toNat : Int) : ℚ) ≠ 0 := by exact_mod_cast hp.ne'
        apply mul_right_cancel₀ hp'
        rw [hm, hq]; push_cast; ring
      rw [hq', hr]
      constructor
      · rintro ⟨h1, h2⟩; exact ⟨h1, by rw [h2]; simp⟩
      · rintro ⟨h1, h2⟩; exact ⟨h1, by exact_mod_cast h2⟩
    · rw [if_neg hd]
      constructor
      · intro e; cases e
      · rintro ⟨h1, h2⟩
        exfalso
        apply hd
        rw [h2] at hm
        have : d.value = (n : Int) * 10 ^ (-d.exp).toNat := by exact_mod_cast hm.symm
        rw [this]
        exact Int.mul_emod_left _ _

theorem Decimal.NewFromBigInt_toRat (v : Int) : (Decimal.NewFromBigInt v 0).toRat = (v : ℚ) := by
  simp [Decimal.NewFromBigInt, Decimal.toRat]

/-! ## BLOCKHASH: the window -/

theorem evalBlockHash_of_not_window (ctx : Context) (num cur : Decimal)
    (h : ¬ (cur.toRat - 257 < num.toRat ∧ num.toRat < cur.toRat)) :
    evalBlockHash ctx num cur = ({ Bytes := zeroBytes32 }, none) := by
  rw [← window_iff] at h
  simp only [evalBlockHash, if_neg h]

theorem evalBlockHash_of_window_ok (ctx : Context) (num cur : Decimal) (n : Nat)
    (h : cur.toRat - 257 < num.toRat ∧ num.toRat < cur.toRat)
    (hn : DecimalToUint64 num = .ok n) :
    evalBlockHash ctx num cur = ({ Bytes := (ctx.GetHash n).Bytes }, none) := by
  rw [← window_iff] at h
  simp only [evalBlockHash, if_pos h, hn]

theorem evalBlockHash_of_window_error (ctx : Context) (num cur : Decimal) (e : ErrorCode)
    (h : cur.toRat - 257 < num.toRat ∧ num.toRat < cur.toRat)
    (hn : DecimalToUint64 num = .error e) :
    evalBlockHash ctx num cur = ({ Bytes := zeroBytes32 }, some e) := by
  rw [← window_iff] at h
  simp only [evalBlockHash, if_pos h, hn]

/-- C1: `evalBlockHash` returns the hash lookup `GetHash(num)` when
`cur - 257 < num < cur` and `num` converts to a `uint64`, and returns 32
zero bytes with no error whenever `num` is not strictly inside that window,
in particular for `num = cur` and for `num = cur - 257`. -/
theorem evalBlockHash_window (ctx : Context) (num cur : Decimal) :
    (cur.toRat - 257 < num.toRat ∧ num.toRat < cur.toRat →
      ∀ n, DecimalToUint64 num = .ok n →
        evalBlockHash ctx num cur = ({ Bytes := (ctx.GetHash n).Bytes }, none)) ∧
    (¬ (cur.toRat - 257 < num.toRat ∧ num.toRat < cur.toRat) →
      evalBlockHash ctx num cur = ({ Bytes := zeroBytes32 }, none)) ∧
    evalBlockHash ctx cur cur = ({ Bytes := zeroBytes32 }, none) ∧
    evalBlockHash ctx (cur.Sub Dec257) cur = ({ Bytes := zeroBytes32 }, none) := by
  refine ⟨fun hw n hn => evalBlockHash_of_window_ok ctx num cur n hw hn,
    evalBlockHash_of_not_window ctx num cur,
    evalBlockHash_of_not_window ctx cur cur ?_, evalBlockHash_of_not_window ctx _ cur ?_⟩
  · intro h; exact lt_irrefl _ h.2
  · intro h
    rw [Decimal.Sub_toRat, Dec257_toRat] at h
    exact lt_irrefl _ h.1

/-- C1 at height 1000: height 999 gives the lookup, height 1000 and a
height beyond `uint64` give the zero digest. -/
theorem evalBlockHash_window_witness :
    evalBlockHash (sampleContext 1000 0 0) ⟨999, 0⟩ ⟨1000, 0⟩
        = ({ Bytes := List.replicate 32 1 }, none) ∧
      evalBlockHash (sampleContext 1000 0 0) ⟨2 ^ 64, 0⟩ ⟨1000, 0⟩
        = ({ Bytes := zeroBytes32 }, none) :=
  ⟨(evalBlockHash_window (sampleContext 1000 0 0) ⟨999, 0⟩ ⟨1000, 0⟩).1
      (by norm_num [Decimal.toRat]) 999 rfl,
    (evalBlockHash_window (sampleContext 1000 0 0) ⟨2 ^ 64, 0⟩ ⟨1000, 0⟩).2.1
      (by norm_num [Decimal.toRat])⟩


theorem constHash_one_ne_zero : (constHash 1).Bytes ≠ zeroBytes32 := by decide

theorem constHash_one_ne_constHash_zero : (constHash 1).Bytes ≠ (constHash 0).Bytes := by decide

/-- The heights whose lookup `evalBlockHash` returns, whatever the context:
the `uint64` values strictly inside the window. -/
theorem evalBlockHash_lookup_iff (cur : Int) (num : Decimal) (n : Nat) :
    (∀ ctx : Context, evalBlockHash ctx num (Decimal.NewFromBigInt cur 0)
        = ({ Bytes := (ctx.GetHash n).Bytes }, none)) ↔
      (n < 2 ^ 64 ∧ cur - 257 < (n : Int) ∧ (n : Int) < cur ∧ num.toRat = (n : ℚ)) := by
  constructor
  · intro h
    have hc := h (markContext n)
    have hmark : ((markContext n).GetHash n).Bytes = (constHash 1).Bytes := by
      simp [markContext]
    rw [hmark] at hc
    by_cases hw : (Decimal.NewFromBigInt cur 0).toRat - 257 < num.toRat ∧
        num.toRat < (Decimal.NewFromBigInt cur 0).toRat
    · cases hconv : DecimalToUint64 num with
      | error e =>
        rw [evalBlockHash_of_window_error _ _ _ e hw hconv] at hc
        simp at hc
      | ok m =>
        rw [evalBlockHash_of_window_ok _ _ _ m hw hconv] at hc
        have hmn : m = n := by
          by_contra hne
          have hz : ((markContext n).GetHash m).Bytes = (constHash 0).Bytes := by
            simp [markContext, hne]
          rw [hz] at hc
          have hb : (constHash 0).Bytes = (constHash 1).Bytes := by
            have := congrArg (fun p : Raw × Option ErrorCode => p.1.Bytes) hc
            simpa using this
          exact constHash_one_ne_constHash_zero hb.symm
        subst hmn
        obtain ⟨h1, h2⟩ := (DecimalToUint64_ok_iff num m).mp hconv
        rw [Decimal.NewFromBigInt_toRat, h2] at hw
        refine ⟨h1, ?_, ?_, h2⟩
        · have := hw.1
          have h3 : ((cur - 257 : Int) : ℚ) < ((m : Int) : ℚ) := by push_cast; exact this
          exact_mod_cast h3
        · have := hw.2
          have h3 : ((m : Int) : ℚ) < (cur : ℚ) := by push_cast; exact this
          exact_mod_cast h3
    · rw [evalBlockHash_of_not_window _ _ _ hw] at hc
      have hb : zeroBytes32 = (constHash 1).Bytes := by
        have := congrArg (fun p : Raw × Option ErrorCode => p.1.Bytes) hc
        simpa using this
      exact absurd hb.symm constHash_one_ne_zero
  · rintro ⟨h1, h2, h3, h4⟩ ctx
    apply evalBlockHash_of_window_ok
    · rw [Decimal.NewFromBigInt_toRat, h4]
      constructor
      · have : ((cur - 257 : Int) : ℚ) < ((n : Int) : ℚ) := by exact_mod_cast h2
        push_cast at this
        exact this
      · have : ((n : Int) : ℚ) < (cur : ℚ) := by exact_mod_cast h3
        push_cast at this
        exact this
    · exact (DecimalToUint64_ok_iff num n).mpr ⟨h1, h4⟩

/-- C2 (amended): for every current height `cur`, the heights for which
`evalBlockHash` returns the context's hash lookup are exactly the `uint64`
values `n` with `cur - 257 < n < cur`; when `256 ≤ cur ≤ 2 ^ 64` these are
exactly the 256 heights `cur - 256, …, cur - 1`. -/
theorem blockHash_lookup_heights (cur : Int) (num : Decimal) (n : Nat) :
    ((∀ ctx : Context, evalBlockHash ctx num (Decimal.NewFromBigInt cur 0)
        = ({ Bytes := (ctx.GetHash n).Bytes }, none)) ↔
      (n < 2 ^ 64 ∧ cur - 257 < (n : Int) ∧ (n : Int) < cur ∧ num.toRat = (n : ℚ))) ∧
    (256 ≤ cur → cur ≤ 2 ^ 64 →
      ((∀ ctx : Context, evalBlockHash ctx num (Decimal.NewFromBigInt cur 0)
          = ({ Bytes := (ctx.GetHash n).Bytes }, none)) ↔
        (cur - 256 ≤ (n : Int) ∧ (n : Int) ≤ cur - 1 ∧ num.toRat = (n : ℚ))) ∧
      (Finset.Icc (cur - 256) (cur - 1)).card = 256) := by
  refine ⟨evalBlockHash_lookup_iff cur num n, fun hlo hhi => ⟨?_, ?_⟩⟩
  · rw [evalBlockHash_lookup_iff]
    constructor
    · rintro ⟨_, h2, h3, h4⟩; exact ⟨by omega, by omega, h4⟩
    · rintro ⟨h2, h3, h4⟩; exact ⟨by omega, by omega, by omega, h4⟩
  · rw [Int.card_Icc]
    have : cur - 1 + 1 - (cur - 256) = 256 := by ring
    rw [this]; rfl

/-- C2 at height 1000: height 744, the first inside the window, gives the
lookup in every context. -/
theorem blockHash_lookup_heights_witness :
    ∀ ctx : Context, evalBlockHash ctx ⟨744, 0⟩ (Decimal.NewFromBigInt 1000 0)
      = ({ Bytes := (ctx.GetHash 744).Bytes }, none) :=
  ((blockHash_lookup_heights 1000 ⟨744, 0⟩ 744).2 (by norm_num) (by norm_num)).1.mpr
    ⟨by norm_num, by norm_num, by norm_num [Decimal.toRat]⟩

/-- C2 as stated fails at current height 10: height `10 - 256 = -246` is
one of `cur - 256, …, cur - 1`, and `evalBlockHash` fails on it with a
conversion error instead of returning a lookup. -/
theorem blockHash_lookup_heights_counterexample :
    ((10 : Int) - 256 ≤ -246 ∧ (-246 : Int) ≤ 10 - 1) ∧
      evalBlockHash (sampleContext 10 0 0) ⟨-246, 0⟩ (Decimal.NewFromBigInt 10 0)
        = ({ Bytes := zeroBytes32 }, some .NumericConversion) :=
  ⟨by decide, by rfl⟩


/-! ## The row loops -/

theorem assignLoop_eq {σ : Type} (f : σ → Raw × σ) (k : Nat) :
    ∀ (pre post : List Tuple) (s : σ),
      assignLoop f k pre.length (pre ++ List.replicate k [] ++ post) s
        = (pre ++ (produceRows f k s).1 ++ post, (produceRows f k s).2) := by
  induction k with
  | zero => intro pre post s; simp [assignLoop, produceRows]
  | succ k ih =>
    intro pre post s
    have hset : (pre ++ List.replicate (k + 1) [] ++ post).set pre.length [(f s).1]
        = (pre ++ [[(f s).1]]) ++ List.replicate k [] ++ post := by
      simp [List.replicate_succ, List.append_assoc, List.set_append_right]
    have hlen : pre.length + 1 = (pre ++ [[(f s).1]]).length := by simp
    simp only [assignLoop, produceRows]
    rw [hset, hlen, ih]
    simp [List.append_assoc]

theorem assignFuncResult_eq {σ : Type} (meta : List DataType) (f : σ → Raw × σ) (n : Nat)
    (s : σ) :
    assignFuncResult meta f n s
      = ({ Meta := meta, Data := (produceRows f n s).1 }, (produceRows f n s).2) := by
  have h := assignLoop_eq f n [] [] s
  simp only [List.length_nil, List.nil_append, List.append_nil] at h
  simp only [assignFuncResult, h]

theorem produceRows_length {σ : Type} (f : σ → Raw × σ) (k : Nat) :
    ∀ s : σ, (produceRows f k s).1.length = k := by
  induction k with
  | zero => intro s; rfl
  | succ k ih => intro s; simp [produceRows, ih]

theorem produceRows_width {σ : Type} (f : σ → Raw × σ) (k : Nat) :
    ∀ s : σ, ∀ row ∈ (produceRows f k s).1, row.length = 1 := by
  induction k with
  | zero => intro s row h; simp [produceRows] at h
  | succ k ih =>
    intro s row h
    simp only [produceRows, List.mem_cons] at h
    rcases h with h | h
    · simp [h]
    · exact ih _ row h

theorem produceRows_const (r : Raw) (k : Nat) :
    (produceRows (fun (_ : Unit) => (r, ())) k ()).1 = List.replicate k [r] := by
  induction k with
  | zero => rfl
  | succ k ih => simp [produceRows, ih, List.replicate_succ]

/-- The constant strategy: the rows of `assignFuncResult` for a producer
that returns the copy of one value. -/
theorem assignFuncResult_const (meta : List DataType) (r : Raw) (n : Nat) :
    (assignFuncResult meta (fun (_ : Unit) => (r, ())) n ()).1
      = { Meta := meta, Data := List.replicate n [r] } := by
  rw [assignFuncResult_eq, produceRows_const]

theorem Raw.clone_eq (r : Raw) : r.clone = r := rfl


theorem blockHashLoop_eq (ctx : Context) (src : List Tuple) (cNum : Decimal) (k : Nat) :
    ∀ (pre post : List Tuple),
      blockHashLoop ctx src cNum k pre.length (pre ++ List.replicate k [] ++ post)
        = (blockHashRows ctx src cNum k pre.length).map
            (fun q => (pre ++ q.1 ++ List.replicate (k - q.1.length) [] ++ post, q.2)) := by
  induction k with
  | zero => intro pre post; simp [blockHashLoop, blockHashRows]
  | succ k ih =>
    intro pre post
    simp only [blockHashLoop, blockHashRows]
    cases hrow : src[pre.length]? with
    | none => rfl
    | some row =>
      simp only []
      cases hx : row[0]? with
      | none => rfl
      | some x =>
        simp only []
        cases he : (evalBlockHash ctx x.Value cNum).2 with
        | some e => simp
        | none =>
          have hset : (pre ++ List.replicate (k + 1) [] ++ post).set pre.length
                [(evalBlockHash ctx x.Value cNum).1]
              = (pre ++ [[(evalBlockHash ctx x.Value cNum).1]]) ++ List.replicate k [] ++ post := by
            simp [List.replicate_succ, List.append_assoc, List.set_append_right]
          have hlen : pre.length + 1 = (pre ++ [[(evalBlockHash ctx x.Value cNum).1]]).length := by
            simp
          simp only []
          rw [hset, hlen, ih, ← hlen, Option.map_map]
          congr 1
          funext q
          simp [List.append_assoc]


/-! ## BLOCKHASH: the evaluator -/

theorem DecimalToUint64_error (d : Decimal) (e : ErrorCode)
    (h : DecimalToUint64 d = .error e) : e = .NumericConversion := by
  unfold DecimalToUint64 at h
  simp only [] at h
  split_ifs at h <;> (injection h with h; exact h.symm)

theorem evalBlockHash_err (ctx : Context) (num cur : Decimal) (e : ErrorCode)
    (h : (evalBlockHash ctx num cur).2 = some e) : e = .NumericConversion := by
  by_cases hw : cur.toRat - 257 < num.toRat ∧ num.toRat < cur.toRat
  · cases hconv : DecimalToUint64 num with
    | error e2 =>
      rw [evalBlockHash_of_window_error ctx num cur e2 hw hconv] at h
      simp only [Option.some.injEq] at h
      subst h
      exact DecimalToUint64_error num e2 hconv
    | ok m =>
      rw [evalBlockHash_of_window_ok ctx num cur m hw hconv] at h
      cases h
  · rw [evalBlockHash_of_not_window ctx num cur hw] at h
    cases h

theorem blockHashRows_err (ctx : Context) (src : List Tuple) (cNum : Decimal) (k : Nat) :
    ∀ (i : Nat) (rows : List Tuple) (e : ErrorCode),
      blockHashRows ctx src cNum k i = some (rows, some e) → e = .NumericConversion := by
  induction k with
  | zero => intro i rows e h; simp [blockHashRows] at h
  | succ k ih =>
    intro i rows e h
    simp only [blockHashRows] at h
    cases hrow : src[i]? with
    | none => rw [hrow] at h; cases h
    | some row =>
      rw [hrow] at h
      simp only [] at h
      cases hx : row[0]? with
      | none => rw [hx] at h; cases h
      | some x =>
        rw [hx] at h
        simp only [] at h
        cases he : (evalBlockHash ctx x.Value cNum).2 with
        | some e2 =>
          rw [he] at h
          simp only [Option.some.injEq, Prod.mk.injEq] at h
          rw [← h.2]
          exact evalBlockHash_err ctx _ _ e2 he
        | none =>
          rw [he] at h
          simp only [Option.map_eq_some'] at h
          obtain ⟨q, hq, hq2⟩ := h
          simp only [Prod.mk.injEq] at hq2
          exact ih (i + 1) q.1 e (by rw [hq, ← hq2.2])

theorem fnBlockHash_column (ctx : Context) (op : Operand) (n : Nat)
    (h : op.IsImmediate = false) :
    fnBlockHash ctx [op] n
      = (blockHashRows ctx op.Data (Decimal.NewFromBigInt ctx.BlockNumber 0) n 0).map
          (fun q => ⟨some { Meta := [ComposeDataType .FixedBytes 3],
                            Data := q.1 ++ List.replicate (n - q.1.length) [] }, q.2, ctx⟩) := by
  have hl := blockHashLoop_eq ctx op.Data (Decimal.NewFromBigInt ctx.BlockNumber 0) n [] []
  simp only [List.length_nil, List.nil_append, List.append_nil] at hl
  simp only [fnBlockHash, h, hl]
  cases blockHashRows ctx op.Data (Decimal.NewFromBigInt ctx.BlockNumber 0) n 0 with
  | none => rfl
  | some q => rfl

theorem fnBlockHash_immediate_ok (ctx : Context) (op : Operand) (n : Nat)
    (h : op.IsImmediate = true) (row : Tuple) (x : Raw)
    (hrow : op.Data[0]? = some row) (hx : row[0]? = some x)
    (he : (evalBlockHash ctx x.Value (Decimal.NewFromBigInt ctx.BlockNumber 0)).2 = none) :
    fnBlockHash ctx [op] n
      = some ⟨some { Meta := [ComposeDataType .FixedBytes 3],
                     Data := List.replicate n
                      [(evalBlockHash ctx x.Value (Decimal.NewFromBigInt ctx.BlockNumber 0)).1] },
          none, ctx⟩ := by
  simp only [fnBlockHash, h, hrow, hx, he, if_true, Raw.clone_eq, assignFuncResult_const]

theorem fnBlockHash_immediate_error (ctx : Context) (op : Operand) (n : Nat)
    (h : op.IsImmediate = true) (row : Tuple) (x : Raw)
    (hrow : op.Data[0]? = some row) (hx : row[0]? = some x) (e : ErrorCode)
    (he : (evalBlockHash ctx x.Value (Decimal.NewFromBigInt ctx.BlockNumber 0)).2 = some e) :
    fnBlockHash ctx [op] n = some ⟨none, some e, ctx⟩ := by
  simp only [fnBlockHash, h, hrow, hx, he, if_true]

theorem fnBlockHash_immediate_no_row (ctx : Context) (op : Operand) (n : Nat)
    (h : op.IsImmediate = true)
    (hrow : op.Data[0]? = none ∨ ∃ row, op.Data[0]? = some row ∧ row[0]? = none) :
    fnBlockHash ctx [op] n = none := by
  rcases hrow with hrow | ⟨row, hrow, hx⟩
  · simp only [fnBlockHash, h, hrow, if_true]
  · simp only [fnBlockHash, h, hrow, hx, if_true]


/-- C3: with an operand list whose length is not 1, `fnBlockHash` fails
with `InvalidOperandNum` and returns a nil result; with exactly one operand
it never fails with `InvalidOperandNum`. -/
theorem fnBlockHash_operand_count (ctx : Context) (ops : List Operand) (n : Nat) :
    (ops.length ≠ 1 →
      fnBlockHash ctx ops n = some ⟨none, some .InvalidOperandNum, ctx⟩) ∧
    (ops.length = 1 →
      ∀ r, fnBlockHash ctx ops n = some r → r.err ≠ some .InvalidOperandNum) := by
  constructor
  · intro h
    match ops, h with
    | [], _ => rfl
    | [_], h => exact absurd rfl h
    | _ :: _ :: _, _ => rfl
  · intro h r hr
    match ops, h with
    | [op], _ =>
      cases hI : op.IsImmediate with
      | false =>
        rw [fnBlockHash_column ctx op n hI, Option.map_eq_some'] at hr
        obtain ⟨q, hq, rfl⟩ := hr
        intro he
        have := blockHashRows_err ctx _ _ n 0 q.1 .InvalidOperandNum (by rw [hq, ← he])
        cases this
      | true =>
        cases hrow : op.Data[0]? with
        | none => rw [fnBlockHash_immediate_no_row ctx op n hI (Or.inl hrow)] at hr; cases hr
        | some row =>
          cases hx : row[0]? with
          | none =>
            rw [fnBlockHash_immediate_no_row ctx op n hI (Or.inr ⟨row, hrow, hx⟩)] at hr
            cases hr
          | some x =>
            cases he : (evalBlockHash ctx x.Value (Decimal.NewFromBigInt ctx.BlockNumber 0)).2 with
            | none =>
              rw [fnBlockHash_immediate_ok ctx op n hI row x hrow hx he] at hr
              injection hr with hr
              rw [← hr]
              simp
            | some e =>
              rw [fnBlockHash_immediate_error ctx op n hI row x hrow hx e he] at hr
              injection hr with hr
              rw [← hr]
              intro h2
              have := evalBlockHash_err ctx _ _ e he
              simp only [Option.some.injEq] at h2
              rw [h2] at this
              cases this

/-- C3 with no operand and with two: `InvalidOperandNum` and a nil result;
with one operand the error is another one. -/
theorem fnBlockHash_operand_count_witness :
    fnBlockHash (sampleContext 10 0 0) [] 3
        = some ⟨none, some .InvalidOperandNum, sampleContext 10 0 0⟩ ∧
      fnBlockHash (sampleContext 10 0 0) [sampleColumn, sampleColumn] 3
        = some ⟨none, some .InvalidOperandNum, sampleContext 10 0 0⟩ ∧
      ∀ r, fnBlockHash (sampleContext 10 0 0) [sampleColumn] 2 = some r →
        r.err ≠ some .InvalidOperandNum :=
  ⟨(fnBlockHash_operand_count (sampleContext 10 0 0) [] 3).1 (by decide),
    (fnBlockHash_operand_count (sampleContext 10 0 0) [sampleColumn, sampleColumn] 3).1
      (by decide),
    (fnBlockHash_operand_count (sampleContext 10 0 0) [sampleColumn] 2).2 rfl⟩

/-- C4, the code at a failing input: at height 10, for a column of the two
heights 5 and -1 and two requested rows, the conversion of -1 fails and
`fnBlockHash` returns, next to the error, an `Operand` whose first row is
populated and whose second row is nil. -/
theorem fnBlockHash_column_error_returns_operand :
    (fnBlockHash (sampleContext 10 0 0) [sampleColumn] 2).map (fun r => (r.result, r.err))
      = some (some { Meta := [ComposeDataType .FixedBytes 3],
                     Data := [[{ Bytes := List.replicate 32 1 }], []] },
              some .NumericConversion) := by
  rfl


/-! ## The shape and the rows of the results -/

theorem blockHashRows_none (ctx : Context) (src : List Tuple) (cNum : Decimal) (k : Nat) :
    ∀ (i : Nat) (rows : List Tuple),
      blockHashRows ctx src cNum k i = some (rows, none) →
        rows.length = k ∧
        ∀ j, j < k → ∃ row x, src[i + j]? = some row ∧ row[0]? = some x ∧
          (evalBlockHash ctx x.Value cNum).2 = none ∧
          rows[j]? = some [(evalBlockHash ctx x.Value cNum).1] := by
  induction k with
  | zero =>
    intro i rows h
    simp only [blockHashRows, Option.some.injEq, Prod.mk.injEq] at h
    refine ⟨by rw [← h.1]; rfl, fun j hj => absurd hj (Nat.not_lt_zero j)⟩
  | succ k ih =>
    intro i rows h
    simp only [blockHashRows] at h
    cases hrow : src[i]? with
    | none => rw [hrow] at h; cases h
    | some row =>
      rw [hrow] at h
      simp only [] at h
      cases hx : row[0]? with
      | none => rw [hx] at h; cases h
      | some x =>
        rw [hx] at h
        simp only [] at h
        cases he : (evalBlockHash ctx x.Value cNum).2 with
        | some e2 => rw [he] at h; simp at h
        | none =>
          rw [he] at h
          simp only [Option.map_eq_some'] at h
          obtain ⟨q, hq, hq2⟩ := h
          simp only [Prod.mk.injEq] at hq2
          obtain ⟨hrows, hnone⟩ := hq2
          have hq' : blockHashRows ctx src cNum k (i + 1) = some (q.1, none) := by
            rw [hq, ← hnone]
          obtain ⟨hlen, hrest⟩ := ih (i + 1) q.1 hq'
          subst hrows
          refine ⟨by simp [hlen], ?_⟩
          intro j hj
          cases j with
          | zero => exact ⟨row, x, by simpa using hrow, hx, he, by simp⟩
          | succ j =>
            obtain ⟨row2, x2, h1, h2, h3, h4⟩ := hrest j (by omega)
            refine ⟨row2, x2, ?_, h2, h3, by simpa using h4⟩
            rw [← h1]
            congr 1
            omega

theorem hasShape_replicate (meta : DataType) (r : Raw) (n : Nat) :
    Operand.hasShape { Meta := [meta], Data := List.replicate n [r] } n := by
  refine ⟨by simp, ?_, by simp⟩
  intro row hrow
  rw [List.eq_of_mem_replicate hrow]
  rfl

theorem fnBlockHash_shape (ctx : Context) (ops : List Operand) (n : Nat) (r : FnReturn)
    (h : fnBlockHash ctx ops n = some r) (herr : r.err = none) :
    ∃ op, r.result = some op ∧ op.hasShape n := by
  match ops with
  | [] => injection h with h; rw [← h] at herr; cases herr
  | _ :: _ :: _ => injection h with h; rw [← h] at herr; cases herr
  | [op] =>
    cases hI : op.IsImmediate with
    | false =>
      rw [fnBlockHash_column ctx op n hI, Option.map_eq_some'] at h
      obtain ⟨q, hq, rfl⟩ := h
      simp only at herr
      obtain ⟨hlen, hrows⟩ := blockHashRows_none ctx _ _ n 0 q.1 (by rw [hq, ← herr])
      refine ⟨_, rfl, ?_, ?_, rfl⟩
      · simp [hlen]
      · intro row hrow
        simp only [hlen, Nat.sub_self, List.replicate_zero, List.append_nil] at hrow
        obtain ⟨j, hj, hjrow⟩ := List.getElem_of_mem hrow
        obtain ⟨row2, x, _, _, _, h4⟩ := hrows j (by omega)
        rw [List.getElem?_eq_getElem hj, hjrow] at h4
        injection h4 with h4
        rw [h4]
        rfl
    | true =>
      cases hrow : op.Data[0]? with
      | none => rw [fnBlockHash_immediate_no_row ctx op n hI (Or.inl hrow)] at h; cases h
      | some row =>
        cases hx : row[0]? with
        | none =>
          rw [fnBlockHash_immediate_no_row ctx op n hI (Or.inr ⟨row, hrow, hx⟩)] at h
          cases h
        | some x =>
          cases he : (evalBlockHash ctx x.Value (Decimal.NewFromBigInt ctx.BlockNumber 0)).2 with
          | none =>
            rw [fnBlockHash_immediate_ok ctx op n hI row x hrow hx he] at h
            injection h with h
            rw [← h]
            exact ⟨_, rfl, hasShape_replicate _ _ n⟩
          | some e =>
            rw [fnBlockHash_immediate_error ctx op n hI row x hrow hx e he] at h
            injection h with h
            rw [← h] at herr
            cases herr


/-! ## Printing and reading back a `uint64` -/

theorem digitChar_isDigit (k : Nat) (h : k < 10) :
    (Nat.digitChar k).isDigit = true ∧ (Nat.digitChar k).toNat - 48 = k := by
  interval_cases k <;> exact ⟨rfl, rfl⟩

theorem digitStep_digitChar (a k : Nat) (h : k < 10) :
    digitStep (some a) (Nat.digitChar k) = some (a * 10 + k) := by
  obtain ⟨h1, h2⟩ := digitChar_isDigit k h
  simp [digitStep, h1, h2]

theorem toDigitsCore_spec (fuel : Nat) :
    ∀ (n : Nat) (ds : List Char), n < fuel →
      ∃ pre, Nat.toDigitsCore 10 fuel n ds = pre ++ ds ∧ pre ≠ [] ∧
        (∀ c ∈ pre, c.isDigit = true) ∧ pre.foldl digitStep (some 0) = some n := by
  induction fuel with
  | zero => intro n ds h; exact absurd h (Nat.not_lt_zero n)
  | succ fuel ih =>
    intro n ds h
    have hk : n % 10 < 10 := Nat.mod_lt _ (by norm_num)
    by_cases h0 : n / 10 = 0
    · refine ⟨[Nat.digitChar (n % 10)], by simp [Nat.toDigitsCore, h0], by simp, ?_, ?_⟩
      · intro c hc
        rw [List.mem_singleton] at hc
        rw [hc]
        exact (digitChar_isDigit _ hk).1
      · rw [List.foldl_cons, List.foldl_nil, digitStep_digitChar 0 _ hk]
        congr 1
        omega
    · obtain ⟨pre, hpre, _, hdig, hval⟩ :=
        ih (n / 10) (Nat.digitChar (n % 10) :: ds) (by omega)
      refine ⟨pre ++ [Nat.digitChar (n % 10)], by simp [Nat.toDigitsCore, h0, hpre], by simp,
        ?_, ?_⟩
      · intro c hc
        rw [List.mem_append, List.mem_singleton] at hc
        rcases hc with hc | hc
        · exact hdig c hc
        · rw [hc]; exact (digitChar_isDigit _ hk).1
      · rw [List.foldl_append, hval, List.foldl_cons, List.foldl_nil,
          digitStep_digitChar _ _ hk]
        congr 1
        omega

theorem fmtSprint_spec (n : Nat) :
    fmtSprint n ≠ [] ∧ (∀ c ∈ fmtSprint n, c.isDigit = true) ∧
      parseDigits (fmtSprint n) = some n := by
  obtain ⟨pre, hpre, hne, hdig, hval⟩ := toDigitsCore_spec (n + 1) n [] (Nat.lt_succ_self n)
  rw [List.append_nil] at hpre
  unfold fmtSprint Nat.toDigits parseDigits
  rw [hpre]
  exact ⟨hne, hdig, hval⟩

/-- The decimal read back from the printed digits of a number is that number. -/
theorem NewFromString_fmtSprint (n : Nat) :
    Decimal.NewFromString (fmtSprint n) = .ok ⟨(n : Int), 0⟩ := by
  obtain ⟨hne, hdig, hval⟩ := fmtSprint_spec n
  obtain ⟨c, cs, hs⟩ := List.exists_cons_of_ne_nil hne
  have hc : c.isDigit = true := hdig c (by rw [hs]; simp)
  have hminus : c ≠ '-' := by rintro rfl; exact absurd hc (by decide)
  have hplus : c ≠ '+' := by rintro rfl; exact absurd hc (by decide)
  have hall : ∀ x ∈ fmtSprint n, (x != '.') = true := by
    intro x hx
    have hd := hdig x hx
    simp only [bne_iff_ne, ne_eq]
    rintro rfl
    exact absurd hd (by decide)
  have htake : (fmtSprint n).takeWhile (fun c => c != '.') = fmtSprint n :=
    List.takeWhile_eq_self_iff.mpr hall
  have hdrop : (fmtSprint n).dropWhile (fun c => c != '.') = [] :=
    List.dropWhile_eq_nil_iff.mpr hall
  have hhead1 : ¬ ((fmtSprint n).head? = some '-') := by
    rw [hs]; simpa using hminus
  have hhead2 : ¬ ((fmtSprint n).head? = some '+') := by
    rw [hs]; simpa using hplus
  unfold Decimal.NewFromString
  simp only [hhead1, hhead2, or_self, if_false, htake, hdrop, List.tail_nil, List.append_nil,
    hne, hval, List.length_nil]
  simp

theorem toInt64_of_le (g : Nat) (h : ¬ g > MaxInt64) : toInt64 g = (g : Int) := by
  have h1 : g < 2 ^ 63 := by unfold MaxInt64 at h; omega
  have h2 : g % 2 ^ 64 = g := Nat.mod_eq_of_lt (by omega)
  unfold toInt64
  rw [h2, if_pos h1]

/-! ## The constant-strategy evaluators -/

theorem fnBlockNumber_eq (ctx : Context) (ops : List Operand) (n : Nat) :
    fnBlockNumber ctx ops n
      = some ⟨some { Meta := [ComposeDataType .Uint 31],
                     Data := List.replicate n [{ Value := ⟨ctx.BlockNumber, 0⟩ }] }, none, ctx⟩ := by
  simp only [fnBlockNumber, Raw.clone_eq, assignFuncResult_const, Decimal.NewFromBigInt]

theorem fnBlockTimestamp_eq (ctx : Context) (ops : List Operand) (n : Nat) :
    fnBlockTimestamp ctx ops n
      = some ⟨some { Meta := [ComposeDataType .Uint 31],
                     Data := List.replicate n [{ Value := ⟨ctx.Time, 0⟩ }] }, none, ctx⟩ := by
  simp only [fnBlockTimestamp, Raw.clone_eq, assignFuncResult_const, Decimal.NewFromBigInt]

theorem fnBlockCoinBase_eq (ctx : Context) (ops : List Operand) (n : Nat) :
    fnBlockCoinBase ctx ops n
      = some ⟨some { Meta := [ComposeDataType .Address 0],
                     Data := List.replicate n [{ Bytes := ctx.Coinbase.Bytes }] }, none, ctx⟩ := by
  simp only [fnBlockCoinBase, Raw.clone_eq, assignFuncResult_const]

theorem fnBlockGasLimit_eq (ctx : Context) (ops : List Operand) (n : Nat) :
    fnBlockGasLimit ctx ops n
      = some ⟨some { Meta := [ComposeDataType .Uint 7],
                     Data := List.replicate n [{ Value := ⟨(ctx.GasLimit : Int), 0⟩ }] },
          none, ctx⟩ := by
  by_cases h : ctx.GasLimit > MaxInt64
  · simp only [fnBlockGasLimit, if_pos h, NewFromString_fmtSprint, Raw.clone_eq,
      assignFuncResult_const]
  · simp only [fnBlockGasLimit, if_neg h, toInt64_of_le _ h, Raw.clone_eq,
      assignFuncResult_const, Decimal.New]

theorem fnMsgSender_eq (ctx : Context) (ops : List Operand) (n : Nat) :
    fnMsgSender ctx ops n
      = some ⟨some { Meta := [ComposeDataType .Address 0],
                     Data := List.replicate n [{ Bytes := ctx.Contract.CallerAddress.Bytes }] },
          none, ctx⟩ := by
  simp only [fnMsgSender, Raw.clone_eq, assignFuncResult_const]

theorem fnMsgData_eq (ctx : Context) (ops : List Operand) (n : Nat) :
    fnMsgData ctx ops n
      = some ⟨some { Meta := [ComposeDataType .DynamicBytes 0],
                     Data := List.replicate n [{ Bytes := ctx.Contract.Input }] }, none, ctx⟩ := by
  simp only [fnMsgData, Raw.clone_eq, assignFuncResult_const]

theorem fnTxOrigin_eq (ctx : Context) (ops : List Operand) (n : Nat) :
    fnTxOrigin ctx ops n
      = some ⟨some { Meta := [ComposeDataType .Address 0],
                     Data := List.replicate n [{ Bytes := ctx.Origin.Bytes }] }, none, ctx⟩ := by
  simp only [fnTxOrigin, Raw.clone_eq, assignFuncResult_const]

/-! ## The dispatch table -/

theorem fnTable_eq (P : Provider) :
    fnTable P = [some fnBlockHash, some fnBlockNumber, some fnBlockTimestamp,
      some fnBlockCoinBase, some fnBlockGasLimit, some fnMsgSender, some fnMsgData,
      some fnTxOrigin, some fnBlockTimestamp, some (fnRand P)] := rfl


theorem fnRand_eq (P : Provider) (ctx : Context) (ops : List Operand) (n : Nat) :
    fnRand P ctx ops n
      = some ⟨some { Meta := [ComposeDataType .Uint 31],
                     Data := (produceRows (randFn P
                        (PutUvarint (List.replicate MaxVarintLen64 0)
                          (ctx.Storage.GetNonce ctx.Origin)) (ComposeDataType .Uint 31)) n
                        ⟨List.replicate MaxVarintLen64 0, ctx⟩).1 },
          none,
          (produceRows (randFn P
            (PutUvarint (List.replicate MaxVarintLen64 0)
              (ctx.Storage.GetNonce ctx.Origin)) (ComposeDataType .Uint 31)) n
            ⟨List.replicate MaxVarintLen64 0, ctx⟩).2.ctx⟩ := by
  simp only [fnRand, assignFuncResult_eq]

theorem fnTable_cases (P : Provider) (id : Nat) (f : fn)
    (h : (fnTable P)[id]? = some (some f)) :
    (id = BLOCKHASH ∧ f = fnBlockHash) ∨ (id = BLOCKNUMBER ∧ f = fnBlockNumber) ∨
    (id = BLOCKTIMESTAMP ∧ f = fnBlockTimestamp) ∨ (id = BLOCKCOINBASE ∧ f = fnBlockCoinBase) ∨
    (id = BLOCKGASLIMIT ∧ f = fnBlockGasLimit) ∨ (id = MSGSENDER ∧ f = fnMsgSender) ∨
    (id = MSGDATA ∧ f = fnMsgData) ∨ (id = TXORIGIN ∧ f = fnTxOrigin) ∨
    (id = NOW ∧ f = fnBlockTimestamp) ∨ (id = RAND ∧ f = fnRand P) := by
  rw [fnTable_eq] at h
  match id, h with
  | 0, h => left; exact ⟨rfl, by simpa using h.symm⟩
  | 1, h => right; left; exact ⟨rfl, by simpa using h.symm⟩
  | 2, h => right; right; left; exact ⟨rfl, by simpa using h.symm⟩
  | 3, h => right; right; right; left; exact ⟨rfl, by simpa using h.symm⟩
  | 4, h => right; right; right; right; left; exact ⟨rfl, by simpa using h.symm⟩
  | 5, h => right; right; right; right; right; left; exact ⟨rfl, by simpa using h.symm⟩
  | 6, h => right; right; right; right; right; right; left; exact ⟨rfl, by simpa using h.symm⟩
  | 7, h =>
    right; right; right; right; right; right; right; left
    exact ⟨rfl, by simpa using h.symm⟩
  | 8, h =>
    right; right; right; right; right; right; right; right; left
    exact ⟨rfl, by simpa using h.symm⟩
  | 9, h =>
    right; right; right; right; right; right; right; right; right
    exact ⟨rfl, by simpa using h.symm⟩
  | k + 10, h => simp at h

theorem shape_of_eq (g : fn) (ctx : Context) (ops : List Operand) (n : Nat) (meta : DataType)
    (v : Raw) (r : FnReturn)
    (hg : g ctx ops n = some ⟨some { Meta := [meta], Data := List.replicate n [v] }, none, ctx⟩)
    (hr : g ctx ops n = some r) : ∃ op, r.result = some op ∧ op.hasShape n := by
  rw [hg] at hr
  injection hr with hr
  rw [← hr]
  exact ⟨_, rfl, hasShape_replicate meta v n⟩

/-- C5: for each of the ten function identifiers, a successful evaluation
with requested row count `n` returns an `Operand` with exactly `n` rows,
each row of width 1, and a `Meta` of length 1. -/
theorem fnTable_result_shape (P : Provider) (id : Nat) (f : fn)
    (hf : (fnTable P)[id]? = some (some f)) (ctx : Context) (ops : List Operand) (n : Nat)
    (r : FnReturn) (hr : f ctx ops n = some r) (herr : r.err = none) :
    ∃ op, r.result = some op ∧ op.Data.length = n ∧ (∀ row ∈ op.Data, row.length = 1) ∧
      op.Meta.length = 1 := by
  suffices hs : ∃ op, r.result = some op ∧ op.hasShape n from hs
  rcases fnTable_cases P id f hf with h | h | h | h | h | h | h | h | h | h <;>
    obtain ⟨-, rfl⟩ := h
  · exact fnBlockHash_shape ctx ops n r hr herr
  · exact shape_of_eq _ ctx ops n _ _ r (fnBlockNumber_eq ctx ops n) hr
  · exact shape_of_eq _ ctx ops n _ _ r (fnBlockTimestamp_eq ctx ops n) hr
  · exact shape_of_eq _ ctx ops n _ _ r (fnBlockCoinBase_eq ctx ops n) hr
  · exact shape_of_eq _ ctx ops n _ _ r (fnBlockGasLimit_eq ctx ops n) hr
  · exact shape_of_eq _ ctx ops n _ _ r (fnMsgSender_eq ctx ops n) hr
  · exact shape_of_eq _ ctx ops n _ _ r (fnMsgData_eq ctx ops n) hr
  · exact shape_of_eq _ ctx ops n _ _ r (fnTxOrigin_eq ctx ops n) hr
  · exact shape_of_eq _ ctx ops n _ _ r (fnBlockTimestamp_eq ctx ops n) hr
  · rw [fnRand_eq] at hr
    injection hr with hr
    rw [← hr]
    exact ⟨_, rfl, produceRows_length _ n _, produceRows_width _ n _, rfl⟩


/-- C5 for `BLOCKHASH` at height 10 over the column of heights 5 and 20:
two rows of width 1 under a `Meta` of length 1. -/
theorem fnTable_result_shape_witness :
    ∃ op, (FnReturn.mk
        (some { Meta := [ComposeDataType .FixedBytes 3],
                Data := [[{ Bytes := List.replicate 32 1 }], [{ Bytes := zeroBytes32 }]] })
        none (sampleContext 10 0 0)).result = some op ∧
      op.Data.length = 2 ∧ (∀ row ∈ op.Data, row.length = 1) ∧ op.Meta.length = 1 :=
  fnTable_result_shape sampleProvider BLOCKHASH fnBlockHash rfl (sampleContext 10 0 0)
    [sampleColumnOk] 2 _ rfl rfl

theorem blockHashRows_replicate (ctx : Context) (cNum : Decimal) (x : Raw) (m : Nat)
    (hx : (evalBlockHash ctx x.Value cNum).2 = none) (k : Nat) :
    ∀ i, i + k ≤ m →
      blockHashRows ctx (List.replicate m [x]) cNum k i
        = some (List.replicate k [(evalBlockHash ctx x.Value cNum).1], none) := by
  induction k with
  | zero => intro i _; rfl
  | succ k ih =>
    intro i hi
    have hrow : (List.replicate m [x])[i]? = some [x] := by
      rw [List.getElem?_replicate]; simp; omega
    simp only [blockHashRows, hrow, List.getElem?_cons_zero, hx, ih (i + 1) (by omega),
      Option.map_some', List.replicate_succ]

/-- C6: on success of `fnBlockHash` with one operand and requested row
count `n`, the result has `n` rows; if the operand is immediate, each row
is the `evalBlockHash` result for the operand's one height; if it is a
column, row `i` is the `evalBlockHash` result for the operand's `i`-th
height; and a column of `n` equal heights gives what the immediate call
for that height gives. -/
theorem fnBlockHash_rows (ctx : Context) (op : Operand) (n : Nat) (r : FnReturn)
    (hr : fnBlockHash ctx [op] n = some r) (herr : r.err = none) :
    (∃ res, r.result = some res ∧ res.Data.length = n ∧
      (op.IsImmediate = true → ∃ row x, op.Data[0]? = some row ∧ row[0]? = some x ∧
        ∀ i, i < n → res.Data[i]? =
          some [(evalBlockHash ctx x.Value (Decimal.NewFromBigInt ctx.BlockNumber 0)).1]) ∧
      (op.IsImmediate = false → ∀ i, i < n → ∃ row x, op.Data[i]? = some row ∧
        row[0]? = some x ∧ res.Data[i]? =
          some [(evalBlockHash ctx x.Value (Decimal.NewFromBigInt ctx.BlockNumber 0)).1])) ∧
    (∀ x : Raw,
      (evalBlockHash ctx x.Value (Decimal.NewFromBigInt ctx.BlockNumber 0)).2 = none →
        fnBlockHash ctx [{ IsImmediate := false, Data := List.replicate n [x] }] n
          = fnBlockHash ctx [{ IsImmediate := true, Data := [[x]] }] n) := by
  constructor
  · cases hI : op.IsImmediate with
    | false =>
      rw [fnBlockHash_column ctx op n hI, Option.map_eq_some'] at hr
      obtain ⟨q, hq, rfl⟩ := hr
      simp only at herr
      obtain ⟨hlen, hrows⟩ := blockHashRows_none ctx _ _ n 0 q.1 (by rw [hq, ← herr])
      refine ⟨_, rfl, by simp [hlen], fun h => Bool.noConfusion h, fun _ i hi => ?_⟩
      obtain ⟨row, x, h1, h2, _, h4⟩ := hrows i hi
      refine ⟨row, x, by simpa using h1, h2, ?_⟩
      simp only [hlen, Nat.sub_self, List.replicate_zero, List.append_nil]
      exact h4
    | true =>
      cases hrow : op.Data[0]? with
      | none => rw [fnBlockHash_immediate_no_row ctx op n hI (Or.inl hrow)] at hr; cases hr
      | some row =>
        cases hx : row[0]? with
        | none =>
          rw [fnBlockHash_immediate_no_row ctx op n hI (Or.inr ⟨row, hrow, hx⟩)] at hr
          cases hr
        | some x =>
          cases he : (evalBlockHash ctx x.Value (Decimal.NewFromBigInt ctx.BlockNumber 0)).2 with
          | none =>
            rw [fnBlockHash_immediate_ok ctx op n hI row x hrow hx he] at hr
            injection hr with hr
            rw [← hr]
            refine ⟨_, rfl, by simp, fun _ => ⟨row, x, rfl, hx, fun i hi => ?_⟩,
              fun h => Bool.noConfusion h⟩
            simp [List.getElem?_replicate, hi]
          | some e =>
            rw [fnBlockHash_immediate_error ctx op n hI row x hrow hx e he] at hr
            injection hr with hr
            rw [← hr] at herr
            cases herr
  · intro x hx
    rw [fnBlockHash_column ctx _ n rfl, blockHashRows_replicate ctx _ x n hx n 0 (by omega),
      fnBlockHash_immediate_ok ctx { IsImmediate := true, Data := [[x]] } n rfl [x] x rfl rfl hx]
    simp


/-- C6 at height 10: the column of heights 5 and 20 succeeds, and a column
of two rows of height 5 gives what the immediate call for height 5 gives. -/
theorem fnBlockHash_rows_witness :
    fnBlockHash (sampleContext 10 0 0)
        [{ IsImmediate := false, Data := List.replicate 2 [{ Value := ⟨5, 0⟩ }] }] 2
      = fnBlockHash (sampleContext 10 0 0)
          [{ IsImmediate := true, Data := [[{ Value := ⟨5, 0⟩ }]] }] 2 :=
  (fnBlockHash_rows (sampleContext 10 0 0) sampleColumnOk 2
    ⟨some { Meta := [ComposeDataType .FixedBytes 3],
            Data := [[{ Bytes := List.replicate 32 1 }], [{ Bytes := zeroBytes32 }]] },
      none, sampleContext 10 0 0⟩ rfl rfl).2 { Value := ⟨5, 0⟩ } rfl

/-- C7: for each constant-strategy function identifier (`BLOCKNUMBER`,
`BLOCKTIMESTAMP`, `NOW`, `BLOCKCOINBASE`, `BLOCKGASLIMIT`, `MSGSENDER`,
`MSGDATA`, `TXORIGIN`), every context, operand list and row count `n`, the
evaluation succeeds, all `n` rows are the one-element tuple of the
corresponding context value, and so is the single row of the evaluation
with `n = 1`. -/
theorem constant_function_rows (P : Provider) (ctx : Context) (ops : List Operand) (n : Nat)
    (id : Nat) (f : fn) (v : Raw) (hv : specConstantValue ctx id = some v)
    (hf : (fnTable P)[id]? = some (some f)) :
    ∃ meta,
      f ctx ops n = some ⟨some { Meta := [meta], Data := List.replicate n [v] }, none, ctx⟩ ∧
      f ctx ops 1 = some ⟨some { Meta := [meta], Data := [[v]] }, none, ctx⟩ := by
  rcases fnTable_cases P id f hf with h | h | h | h | h | h | h | h | h | h <;>
    obtain ⟨rfl, rfl⟩ := h
  · exact absurd hv (by simp [specConstantValue, BLOCKHASH, BLOCKNUMBER, BLOCKTIMESTAMP,
      BLOCKCOINBASE, BLOCKGASLIMIT, MSGSENDER, MSGDATA, TXORIGIN, NOW])
  · have hs : specConstantValue ctx BLOCKNUMBER = some { Value := ⟨ctx.BlockNumber, 0⟩ } := rfl
    rw [hs] at hv; injection hv with hv; subst hv
    exact ⟨_, fnBlockNumber_eq ctx ops n, fnBlockNumber_eq ctx ops 1⟩
  · have hs : specConstantValue ctx BLOCKTIMESTAMP = some { Value := ⟨ctx.Time, 0⟩ } := rfl
    rw [hs] at hv; injection hv with hv; subst hv
    exact ⟨_, fnBlockTimestamp_eq ctx ops n, fnBlockTimestamp_eq ctx ops 1⟩
  · have hs : specConstantValue ctx BLOCKCOINBASE = some { Bytes := ctx.Coinbase.Bytes } := rfl
    rw [hs] at hv; injection hv with hv; subst hv
    exact ⟨_, fnBlockCoinBase_eq ctx ops n, fnBlockCoinBase_eq ctx ops 1⟩
  · have hs : specConstantValue ctx BLOCKGASLIMIT
        = some { Value := ⟨(ctx.GasLimit : Int), 0⟩ } := rfl
    rw [hs] at hv; injection hv with hv; subst hv
    exact ⟨_, fnBlockGasLimit_eq ctx ops n, fnBlockGasLimit_eq ctx ops 1⟩
  · have hs : specConstantValue ctx MSGSENDER
        = some { Bytes := ctx.Contract.CallerAddress.Bytes } := rfl
    rw [hs] at hv; injection hv with hv; subst hv
    exact ⟨_, fnMsgSender_eq ctx ops n, fnMsgSender_eq ctx ops 1⟩
  · have hs : specConstantValue ctx MSGDATA = some { Bytes := ctx.Contract.Input } := rfl
    rw [hs] at hv; injection hv with hv; subst hv
    exact ⟨_, fnMsgData_eq ctx ops n, fnMsgData_eq ctx ops 1⟩
  · have hs : specConstantValue ctx TXORIGIN = some { Bytes := ctx.Origin.Bytes } := rfl
    rw [hs] at hv; injection hv with hv; subst hv
    exact ⟨_, fnTxOrigin_eq ctx ops n, fnTxOrigin_eq ctx ops 1⟩
  · have hs : specConstantValue ctx NOW = some { Value := ⟨ctx.Time, 0⟩ } := rfl
    rw [hs] at hv; injection hv with hv; subst hv
    exact ⟨_, fnBlockTimestamp_eq ctx ops n, fnBlockTimestamp_eq ctx ops 1⟩
  · exact absurd hv (by simp [specConstantValue, RAND, BLOCKNUMBER, BLOCKTIMESTAMP,
      BLOCKCOINBASE, BLOCKGASLIMIT, MSGSENDER, MSGDATA, TXORIGIN, NOW])

/-- C7 for `BLOCKGASLIMIT` and `NOW` with five requested rows: five rows
holding the gas limit, five rows holding the block time. -/
theorem constant_function_rows_witness :
    (∃ meta, fnBlockGasLimit (sampleContext 10 8000000 0) [] 5
        = some ⟨some { Meta := [meta], Data := List.replicate 5 [{ Value := ⟨8000000, 0⟩ }] },
            none, sampleContext 10 8000000 0⟩ ∧
      fnBlockGasLimit (sampleContext 10 8000000 0) [] 1
        = some ⟨some { Meta := [meta], Data := [[{ Value := ⟨8000000, 0⟩ }]] },
            none, sampleContext 10 8000000 0⟩) ∧
    (∃ meta, fnBlockTimestamp (sampleContext 10 8000000 0) [sampleColumn] 5
        = some ⟨some { Meta := [meta], Data := List.replicate 5 [{ Value := ⟨1700000000, 0⟩ }] },
            none, sampleContext 10 8000000 0⟩ ∧
      fnBlockTimestamp (sampleContext 10 8000000 0) [sampleColumn] 1
        = some ⟨some { Meta := [meta], Data := [[{ Value := ⟨1700000000, 0⟩ }]] },
            none, sampleContext 10 8000000 0⟩) :=
  ⟨constant_function_rows sampleProvider (sampleContext 10 8000000 0) [] 5 BLOCKGASLIMIT
      fnBlockGasLimit _ rfl rfl,
    constant_function_rows sampleProvider (sampleContext 10 8000000 0) [sampleColumn] 5 NOW
      fnBlockTimestamp _ rfl rfl⟩

/-- C8: for every gas limit `g` (every `uint64` among them), the textual construction succeeds
and gives the decimal `g`, the direct construction (taken for
`g ≤ MaxInt64`) gives the same decimal, `fnBlockGasLimit` succeeds with
every row holding that decimal, and the decimal denotes the number `g`. -/
theorem fnBlockGasLimit_value (ctx : Context) (ops : List Operand) (n : Nat) :
    Decimal.NewFromString (fmtSprint ctx.GasLimit) = .ok ⟨(ctx.GasLimit : Int), 0⟩ ∧
    (ctx.GasLimit ≤ MaxInt64 →
      Decimal.New (toInt64 ctx.GasLimit) 0 = ⟨(ctx.GasLimit : Int), 0⟩) ∧
    fnBlockGasLimit ctx ops n
      = some ⟨some { Meta := [ComposeDataType .Uint 7],
                     Data := List.replicate n [{ Value := ⟨(ctx.GasLimit : Int), 0⟩ }] },
          none, ctx⟩ ∧
    (Decimal.mk (ctx.GasLimit : Int) 0).toRat = (ctx.GasLimit : ℚ) := by
  refine ⟨NewFromString_fmtSprint _, fun h => ?_, fnBlockGasLimit_eq ctx ops n, ?_⟩
  · rw [toInt64_of_le _ (by omega)]
    rfl
  · simp [Decimal.toRat]

/-- C8 at the boundary: the gas limit `2 ^ 63` (textual path) gives the
decimal `2 ^ 63`, one more than the decimal `2 ^ 63 - 1` that the gas limit
`2 ^ 63 - 1` (direct path) gives. -/
theorem fnBlockGasLimit_value_witness :
    (fnBlockGasLimit (sampleContext 10 (2 ^ 63) 0) [] 1
        = some ⟨some { Meta := [ComposeDataType .Uint 7],
                       Data := [[{ Value := ⟨9223372036854775807 + 1, 0⟩ }]] },
            none, sampleContext 10 (2 ^ 63) 0⟩) ∧
      (fnBlockGasLimit (sampleContext 10 (2 ^ 63 - 1) 0) [] 1
        = some ⟨some { Meta := [ComposeDataType .Uint 7],
                       Data := [[{ Value := ⟨9223372036854775807, 0⟩ }]] },
            none, sampleContext 10 (2 ^ 63 - 1) 0⟩) :=
  ⟨(fnBlockGasLimit_value (sampleContext 10 (2 ^ 63) 0) [] 1).2.2.1,
    (fnBlockGasLimit_value (sampleContext 10 (2 ^ 63 - 1) 0) [] 1).2.2.1⟩


/-! ## RAND: the call counter -/

theorem produceRows_state {σ : Type} (f : σ → Raw × σ) (k : Nat) :
    ∀ s : σ, (produceRows f k s).2 = (fun t => (f t).2)^[k] s := by
  induction k with
  | zero => intro s; rfl
  | succ k ih => intro s; simp only [produceRows, ih, Function.iterate_succ, Function.comp]

theorem produceRows_getElem {σ : Type} (f : σ → Raw × σ) (k : Nat) :
    ∀ (s : σ) (j : Nat), j < k →
      (produceRows f k s).1[j]? = some [(f ((fun t => (f t).2)^[j] s)).1] := by
  induction k with
  | zero => intro s j hj; exact absurd hj (Nat.not_lt_zero j)
  | succ k ih =>
    intro s j hj
    cases j with
    | zero => simp [produceRows]
    | succ j =>
      simp only [produceRows, List.getElem?_cons_succ, Function.iterate_succ, Function.comp]
      exact ih _ j (by omega)

theorem randFn_iterate (P : Provider) (nonce : List Byte) (vType : DataType) (ctx : Context)
    (k : Nat) :
    ∀ (buf : List Byte) (c : Nat), c < 2 ^ 64 →
      (fun t => (randFn P nonce vType t).2)^[k] ⟨buf, { ctx with RandCallIndex := c }⟩
        = ⟨usedIndexAfter buf c k, { ctx with RandCallIndex := (c + k) % 2 ^ 64 }⟩ := by
  induction k with
  | zero =>
    intro buf c hc
    simp only [Function.iterate_zero, id, usedIndexAfter, Nat.add_zero, Nat.mod_eq_of_lt hc]
  | succ k ih =>
    intro buf c hc
    have hstep : (randFn P nonce vType ⟨buf, { ctx with RandCallIndex := c }⟩).2
        = ⟨PutUvarint buf c, { ctx with RandCallIndex := (c + 1) % 2 ^ 64 }⟩ := rfl
    simp only [Function.iterate_succ, Function.comp, hstep]
    rw [ih _ _ (Nat.mod_lt _ (by norm_num))]
    simp only [usedIndexAfter]
    congr 2
    omega


theorem fnRand_rows (P : Provider) (ctx : Context) (ops : List Operand) (n : Nat)
    (hc : ctx.RandCallIndex < 2 ^ 64) :
    ∃ res,
      fnRand P ctx ops n
        = some ⟨some res, none,
            { ctx with RandCallIndex := (ctx.RandCallIndex + n) % 2 ^ 64 }⟩ ∧
      res.Data.length = n ∧
      ∀ k, k < n → res.Data[k]? =
        some [(randFn P
          (PutUvarint (List.replicate MaxVarintLen64 0) (ctx.Storage.GetNonce ctx.Origin))
          (ComposeDataType .Uint 31)
          ⟨usedIndexAfter (List.replicate MaxVarintLen64 0) ctx.RandCallIndex k,
            { ctx with RandCallIndex := (ctx.RandCallIndex + k) % 2 ^ 64 }⟩).1] := by
  have hctx : ctx = { ctx with RandCallIndex := ctx.RandCallIndex } := rfl
  refine ⟨{ Meta := [ComposeDataType .Uint 31],
            Data := (produceRows (randFn P
              (PutUvarint (List.replicate MaxVarintLen64 0) (ctx.Storage.GetNonce ctx.Origin))
              (ComposeDataType .Uint 31)) n ⟨List.replicate MaxVarintLen64 0, ctx⟩).1 },
    ?_, ?_, ?_⟩
  · rw [fnRand_eq, produceRows_state]
    have h := randFn_iterate P
      (PutUvarint (List.replicate MaxVarintLen64 0) (ctx.Storage.GetNonce ctx.Origin))
      (ComposeDataType .Uint 31) ctx n (List.replicate MaxVarintLen64 0) ctx.RandCallIndex hc
    rw [← hctx] at h
    rw [h]
  · exact produceRows_length _ n _
  · intro k hk
    have h := randFn_iterate P
      (PutUvarint (List.replicate MaxVarintLen64 0) (ctx.Storage.GetNonce ctx.Origin))
      (ComposeDataType .Uint 31) ctx k (List.replicate MaxVarintLen64 0) ctx.RandCallIndex hc
    rw [← hctx] at h
    simp only []
    rw [produceRows_getElem _ n _ k hk, h]

/-- C9: for a context whose randomness call counter holds `c` and a
requested row count `n`, `fnRand` succeeds with `n` rows, row `k` is what
the producer gives at counter value `c + k` (modulo `2 ^ 64`), the counter
is left at `c + n` (modulo `2 ^ 64`), and a second call of `m` rows on the
context so left leaves the counter at `c + n + m` (modulo `2 ^ 64`). -/
theorem fnRand_counter (P : Provider) (ctx : Context) (ops : List Operand) (n : Nat)
    (hc : ctx.RandCallIndex < 2 ^ 64) :
    (∃ res,
      fnRand P ctx ops n
        = some ⟨some res, none,
            { ctx with RandCallIndex := (ctx.RandCallIndex + n) % 2 ^ 64 }⟩ ∧
      res.Data.length = n ∧
      ∀ k, k < n → res.Data[k]? =
        some [(randFn P
          (PutUvarint (List.replicate MaxVarintLen64 0) (ctx.Storage.GetNonce ctx.Origin))
          (ComposeDataType .Uint 31)
          ⟨usedIndexAfter (List.replicate MaxVarintLen64 0) ctx.RandCallIndex k,
            { ctx with RandCallIndex := (ctx.RandCallIndex + k) % 2 ^ 64 }⟩).1]) ∧
    (∀ (ops2 : List Operand) (m : Nat), ∃ res2,
      fnRand P { ctx with RandCallIndex := (ctx.RandCallIndex + n) % 2 ^ 64 } ops2 m
        = some ⟨some res2, none,
            { ctx with RandCallIndex := (ctx.RandCallIndex + n + m) % 2 ^ 64 }⟩) := by
  refine ⟨fnRand_rows P ctx ops n hc, fun ops2 m => ?_⟩
  obtain ⟨res2, h2, -, -⟩ := fnRand_rows P
    { ctx with RandCallIndex := (ctx.RandCallIndex + n) % 2 ^ 64 } ops2 m
    (Nat.mod_lt _ (by norm_num))
  refine ⟨res2, ?_⟩
  rw [h2]
  simp only [Nat.mod_add_mod]

/-- C9 for three rows from counter 0: the counter is left at 3. -/
theorem fnRand_counter_witness :
    ∃ res, fnRand sampleProvider (sampleContext 10 0 0) [] 3
      = some ⟨some res, none, sampleContext 10 0 3⟩ :=
  (fnRand_counter sampleProvider (sampleContext 10 0 0) [] 3 (by decide)).1.imp
    (fun _ h => h.1)


/-! ## RAND: the counter buffer across a wrap of the counter -/

/-- C10, the code at a failing input: under the same seed, origin and
nonce, the second row of a two-row call that starts at counter
`2 ^ 64 - 1` and the only row of a one-row call that starts at counter `0`
both consume the counter value `0`; the first hashes the counter buffer
`[0, 255, …, 255, 1]`, which keeps the bytes the row before it wrote, the
second hashes ten zero bytes, and the two rows hold different values. -/
theorem fnRand_wrapped_counter_rows :
    usedIndexAfter (List.replicate MaxVarintLen64 0) (2 ^ 64 - 1) 2
        = [0, 255, 255, 255, 255, 255, 255, 255, 255, 1] ∧
      usedIndexAfter (List.replicate MaxVarintLen64 0) 0 1 = [0, 0, 0, 0, 0, 0, 0, 0, 0, 0] ∧
      (fnRand sampleProvider (sampleContext 10 0 (2 ^ 64 - 1)) [] 2).map
          (fun r => (r.result.map (fun o => o.Data), r.ctx.RandCallIndex))
        = some (some [[{ Value :=
              ⟨1362259873380190534394952764842279813595521399805592200375899098224332373761,
                0⟩ }],
            [{ Value :=
              ⟨1362259873380190534394952764842279813595521399805590996172445966464802881281,
                0⟩ }]], 1) ∧
      (fnRand sampleProvider (sampleContext 10 0 0) [] 1).map
          (fun r => (r.result.map (fun o => o.Data), r.ctx.RandCallIndex))
        = some (some [[{ Value :=
              ⟨1362259873380190534394952764842279813595521399805590991450079483595157667840,
                0⟩ }]], 1) := by
  refine ⟨by decide, by decide, by rfl, by rfl⟩

/-! ## RAND: the counter buffer while the counter does not wrap -/

theorem putUvarintLoop_length (k : Nat) :
    ∀ (buf : List Byte) (i x : Nat), (putUvarintLoop k buf i x).length = buf.length := by
  induction k with
  | zero => intro buf i x; rfl
  | succ k ih =>
    intro buf i x
    simp only [putUvarintLoop]
    split_ifs
    · rw [ih, List.length_set]
    · rw [List.length_set]

theorem putUvarintLoop_frame (k : Nat) :
    ∀ (buf : List Byte) (i x j : Nat), (j < i ∨ i + uvarintLen k x ≤ j) →
      (putUvarintLoop k buf i x)[j]? = buf[j]? := by
  induction k with
  | zero => intro buf i x j _; rfl
  | succ k ih =>
    intro buf i x j hj
    simp only [putUvarintLoop, uvarintLen] at hj ⊢
    split_ifs at hj ⊢ with hx
    · rw [ih _ _ _ j (by omega), List.getElem?_set_ne (by omega)]
    · rw [List.getElem?_set_ne (by omega)]

theorem putUvarintLoop_congr (k : Nat) :
    ∀ (buf1 buf2 : List Byte) (i x : Nat), buf1.length = buf2.length →
      (∀ j, (j < i ∨ i + uvarintLen k x ≤ j) → buf1[j]? = buf2[j]?) →
      putUvarintLoop k buf1 i x = putUvarintLoop k buf2 i x := by
  induction k with
  | zero =>
    intro buf1 buf2 i x _ h
    simp only [putUvarintLoop]
    apply List.ext_getElem?
    intro j
    exact h j (by simp only [uvarintLen]; omega)
  | succ k ih =>
    intro buf1 buf2 i x hlen h
    have hset : ∀ (b : Byte) (j : Nat), (j < i + 1 ∨ i + 1 ≤ j → j = i ∨ buf1[j]? = buf2[j]?) →
        (buf1.set i b)[j]? = (buf2.set i b)[j]? := by
      intro b j hj
      by_cases hji : j = i
      · subst hji
        by_cases hi : j < buf1.length
        · rw [List.getElem?_set_self hi, List.getElem?_set_self (by omega)]
        · rw [List.getElem?_eq_none (by rw [List.length_set]; omega),
            List.getElem?_eq_none (by rw [List.length_set]; omega)]
      · rw [List.getElem?_set_ne (Ne.symm hji), List.getElem?_set_ne (Ne.symm hji)]
        rcases hj (by omega) with h1 | h1
        · exact absurd h1 hji
        · exact h1
    simp only [putUvarintLoop, uvarintLen] at h ⊢
    split_ifs at h ⊢ with hx
    · apply ih
      · rw [List.length_set, List.length_set, hlen]
      · intro j hj
        apply hset
        intro _
        by_cases hji : j = i
        · exact Or.inl hji
        · exact Or.inr (h j (by omega))
    · apply List.ext_getElem?
      intro j
      apply hset
      intro _
      by_cases hji : j = i
      · exact Or.inl hji
      · exact Or.inr (h j (by omega))

theorem uvarintLen_mono (k : Nat) :
    ∀ x y : Nat, x ≤ y → uvarintLen k x ≤ uvarintLen k y := by
  induction k with
  | zero => intro x y _; exact Nat.le_refl _
  | succ k ih =>
    intro x y hxy
    simp only [uvarintLen]
    split_ifs with h1 h2 h2
    · have hs : x >>> 7 ≤ y >>> 7 := by
        rw [Nat.shiftRight_eq_div_pow, Nat.shiftRight_eq_div_pow]
        exact Nat.div_le_div_right hxy
      have := ih _ _ hs
      omega
    · omega
    · omega
    · exact Nat.le_refl _

/-- While the counter does not wrap, the counter buffer of row `k` of a
call that started at counter `c` is the zero-padded varint of `c + k`: a
later encoding is never shorter than an earlier one, so it covers every
byte an earlier row wrote. -/
theorem usedIndexAfter_eq (k : Nat) :
    ∀ (buf : List Byte) (c : Nat), buf.length = MaxVarintLen64 →
      (∀ j, uvarintLen MaxVarintLen64 c ≤ j →
        buf[j]? = (List.replicate MaxVarintLen64 (0 : Byte))[j]?) →
      c + k < 2 ^ 64 →
      usedIndexAfter buf c (k + 1) = PutUvarint (List.replicate MaxVarintLen64 0) (c + k) := by
  induction k with
  | zero =>
    intro buf c hlen hz _
    simp only [usedIndexAfter, PutUvarint, Nat.add_zero]
    apply putUvarintLoop_congr
    · rw [hlen, List.length_replicate]
    · intro j hj
      exact hz j (by omega)
  | succ k ih =>
    intro buf c hlen hz hc
    have hmod : (c + 1) % 2 ^ 64 = c + 1 := Nat.mod_eq_of_lt (by omega)
    have hstep : usedIndexAfter buf c (k + 1 + 1)
        = usedIndexAfter (PutUvarint buf c) (c + 1) (k + 1) := by
      rw [usedIndexAfter, hmod]
    rw [hstep, ih (PutUvarint buf c) (c + 1)
      (by rw [PutUvarint, putUvarintLoop_length, hlen]) ?_ (by omega)]
    · congr 1
      omega
    · intro j hj
      have hle := uvarintLen_mono MaxVarintLen64 c (c + 1) (Nat.le_succ c)
      rw [PutUvarint, putUvarintLoop_frame _ _ _ _ j (by omega)]
      exact hz j (by omega)

/-! ## RAND: the bytes that are hashed -/

set_option maxRecDepth 8000 in
theorem lor_high_bit : ∀ y, y < 256 → y ||| 128 = y % 128 + 128 := by
  decide

theorem putUvarintLoop_spec (k : Nat) :
    ∀ (pre rest : List Byte) (x : Nat), k ≤ rest.length →
      putUvarintLoop k (pre ++ rest) pre.length x
        = pre ++ specUvarintLoop k x ++ rest.drop (specUvarintLoop k x).length := by
  induction k with
  | zero => intro pre rest x _; simp [putUvarintLoop, specUvarintLoop]
  | succ k ih =>
    intro pre rest x hk
    match rest, hk with
    | b :: rest, hk =>
      have hset : ∀ y : Byte, (pre ++ b :: rest).set pre.length y = (pre ++ [y]) ++ rest := by
        intro y; simp [List.set_append_right]
      have hlen : ∀ y : Byte, pre.length + 1 = (pre ++ [y]).length := by intro y; simp
      simp only [putUvarintLoop, specUvarintLoop]
      by_cases hx : x < 128
      · have hx2 : ¬ x ≥ 0x80 := by omega
        rw [if_neg hx2, if_pos hx, hset, Nat.mod_eq_of_lt (by omega)]
        simp
      · have hx2 : x ≥ 0x80 := by omega
        have hb : x % 256 ||| 0x80 = x % 128 + 128 := by
          rw [lor_high_bit _ (Nat.mod_lt _ (by norm_num))]
          omega
        have hs : x >>> 7 = x / 128 := by rw [Nat.shiftRight_eq_div_pow]
        rw [if_pos hx2, if_neg hx, hset, hlen, hb, hs,
          ih _ rest _ (by simpa using hk)]
        simp

/-- The buffer `binary.PutUvarint` leaves in ten zero bytes is the
specification's varint followed by zero bytes. -/
theorem PutUvarint_zeros (x : Nat) :
    PutUvarint (List.replicate MaxVarintLen64 0) x
      = zeroPadded MaxVarintLen64 (specUvarint x) := by
  have h := putUvarintLoop_spec MaxVarintLen64 [] (List.replicate MaxVarintLen64 0) x
    (by simp)
  simp only [List.nil_append, List.length_nil] at h
  rw [PutUvarint, h, zeroPadded, specUvarint]
  simp

theorem usedIndexAfter_back (k : Nat) :
    ∀ (buf : List Byte) (c : Nat), c < 2 ^ 64 →
      usedIndexAfter buf c (k + 1) = PutUvarint (usedIndexAfter buf c k) ((c + k) % 2 ^ 64) := by
  induction k with
  | zero =>
    intro buf c hc
    simp only [usedIndexAfter, Nat.add_zero, Nat.mod_eq_of_lt hc]
  | succ k ih =>
    intro buf c _
    have hstep : ∀ m, usedIndexAfter buf c (m + 1)
        = usedIndexAfter (PutUvarint buf c) ((c + 1) % 2 ^ 64) m := fun m => rfl
    rw [hstep (k + 1), ih _ _ (Nat.mod_lt _ (by norm_num)), hstep k]
    congr 1
    omega

theorem randFn_value (P : Provider) (nonce : List Byte) (vType : DataType) (s : RandState) :
    (randFn P nonce vType s).1
      = { Value := (P.DecimalDecode vType (P.keccak (s.ctx.Randomness ++ s.ctx.Origin.Bytes
          ++ nonce ++ PutUvarint s.binaryUsedIndex s.ctx.RandCallIndex))).1 } := by
  simp [randFn, randHashInput, Provider.Keccak256, List.flatten, List.append_assoc]

/-- C11 (amended): for a `RAND` call that starts at counter `c` and whose
`n` rows do not wrap the counter (`c + n ≤ 2 ^ 64`), row `k` hashes the
seed, the origin's bytes, the ten-byte buffer holding `varint(nonce)`
followed by zero bytes and the ten-byte buffer holding `varint(c + k)`
followed by zero bytes, and its value is the decoding of that digest under
the `Uint`/31 tag. -/
theorem fnRand_hashed_bytes (P : Provider) (ctx : Context) (ops : List Operand) (n : Nat)
    (hc : ctx.RandCallIndex < 2 ^ 64) (hn : ctx.RandCallIndex + n ≤ 2 ^ 64) :
    ∃ res,
      fnRand P ctx ops n
        = some ⟨some res, none,
            { ctx with RandCallIndex := (ctx.RandCallIndex + n) % 2 ^ 64 }⟩ ∧
      ∀ k, k < n → res.Data[k]? =
        some [{ Value := (P.DecimalDecode (ComposeDataType .Uint 31)
          (P.keccak (ctx.Randomness ++ ctx.Origin.Bytes
            ++ zeroPadded MaxVarintLen64 (specUvarint (ctx.Storage.GetNonce ctx.Origin))
            ++ zeroPadded MaxVarintLen64 (specUvarint (ctx.RandCallIndex + k))))).1 }] := by
  obtain ⟨res, h1, -, h3⟩ := fnRand_rows P ctx ops n hc
  refine ⟨res, h1, fun k hk => ?_⟩
  rw [h3 k hk, randFn_value]
  simp only []
  rw [← usedIndexAfter_back k _ _ hc,
    usedIndexAfter_eq k _ _ (by simp) (fun _ _ => rfl) (by omega),
    PutUvarint_zeros, PutUvarint_zeros]

/-- C11 for one row from counter 0 with nonce 9: the row hashes the seed,
the origin and two ten-byte buffers. -/
theorem fnRand_hashed_bytes_witness :
    ∃ res,
      fnRand sampleProvider (sampleContext 10 0 0) [] 1
        = some ⟨some res, none, sampleContext 10 0 1⟩ ∧
      ∀ k, k < 1 → res.Data[k]? =
        some [{ Value := (sampleProvider.DecimalDecode (ComposeDataType .Uint 31)
          (sampleProvider.keccak ([8, 8] ++ List.replicate 20 3
            ++ zeroPadded MaxVarintLen64 (specUvarint 9)
            ++ zeroPadded MaxVarintLen64 (specUvarint (0 + k))))).1 }] :=
  fnRand_hashed_bytes sampleProvider (sampleContext 10 0 0) [] 1 (by decide) (by decide)

/-- C11 as stated fails for the seed `[8, 8]`, the origin of twenty bytes
`3`, nonce 9 and counter 0: the row hashes 42 bytes, the seed, the origin
and two ten-byte buffers, while `S`, `A`, `varint(9)`, `varint(0)` are 24
bytes, and the row's value is not the decoding of the digest of those 24
bytes. -/
theorem fnRand_hashed_bytes_counterexample :
    (randHashInput (sampleContext 10 0 1) (PutUvarint (List.replicate MaxVarintLen64 0) 9)
        (PutUvarint (List.replicate MaxVarintLen64 0) 0)).flatten
      = [8, 8, 3, 3, 3, 3, 3, 3, 3, 3, 3, 3, 3, 3, 3, 3, 3, 3, 3, 3, 3, 3,
          9, 0, 0, 0, 0, 0, 0, 0, 0, 0, 0, 0, 0, 0, 0, 0, 0, 0, 0, 0] ∧
    specRandHashed [8, 8] (List.replicate 20 3) 9 0
      = [8, 8, 3, 3, 3, 3, 3, 3, 3, 3, 3, 3, 3, 3, 3, 3, 3, 3, 3, 3, 3, 3, 9, 0] ∧
    (fnRand sampleProvider (sampleContext 10 0 0) [] 1).map
        (fun r => r.result.map (fun o => o.Data))
      = some (some [[{ Value :=
          ⟨1362259873380190534394952764842279813595521399805590991450079483595157667840,
            0⟩ }]]) ∧
    (sampleProvider.DecimalDecode (ComposeDataType .Uint 31)
        (sampleProvider.keccak (specRandHashed [8, 8] (List.replicate 20 3) 9 0))).1
      = ⟨196926803836223237334972856479275870028231226273476839680, 0⟩ := by
  refine ⟨by decide, by decide, by rfl, by rfl⟩

/-! ## The operand list, the dispatch table and the context -/

/-- C12: each evaluator of the table other than the one for `BLOCKHASH`
returns, for any two operand lists, the same result, the same error and the
same context. -/
theorem evaluators_ignore_operands (P : Provider) (id : Nat) (f : fn)
    (hf : (fnTable P)[id]? = some (some f)) (hid : id ≠ BLOCKHASH) (ctx : Context) (n : Nat)
    (ops1 ops2 : List Operand) :
    f ctx ops1 n = f ctx ops2 n := by
  rcases fnTable_cases P id f hf with h | h | h | h | h | h | h | h | h | h <;>
    obtain ⟨rfl, rfl⟩ := h
  · exact absurd rfl hid
  all_goals rfl

/-- C12 for `RAND` and `BLOCKGASLIMIT`: no operand and two operands give
the same return. -/
theorem evaluators_ignore_operands_witness :
    fnRand sampleProvider (sampleContext 10 0 0) [] 3
        = fnRand sampleProvider (sampleContext 10 0 0) [sampleColumn, sampleColumnOk] 3 ∧
      fnBlockGasLimit (sampleContext 10 7 0) [sampleColumn] 2
        = fnBlockGasLimit (sampleContext 10 7 0) [] 2 :=
  ⟨evaluators_ignore_operands sampleProvider RAND (fnRand sampleProvider) rfl (by decide)
      (sampleContext 10 0 0) 3 [] [sampleColumn, sampleColumnOk],
    evaluators_ignore_operands sampleProvider BLOCKGASLIMIT fnBlockGasLimit rfl (by decide)
      (sampleContext 10 7 0) 2 [sampleColumn] []⟩

/-- C13: the ten identifiers are the indices 0 to 9, the table has ten
entries and none is nil, the entries for `NOW` and for `BLOCKTIMESTAMP` are
both `fnBlockTimestamp`, and so the evaluators found under the two
identifiers return the same for every context, operand list and row
count. -/
theorem fnTable_complete (P : Provider) :
    [BLOCKHASH, BLOCKNUMBER, BLOCKTIMESTAMP, BLOCKCOINBASE, BLOCKGASLIMIT, MSGSENDER, MSGDATA,
        TXORIGIN, NOW, RAND] = List.range 10 ∧
    (fnTable P).length = 10 ∧
    (∀ id, id < 10 → ∃ f, (fnTable P)[id]? = some (some f)) ∧
    (fnTable P)[NOW]? = some (some fnBlockTimestamp) ∧
    (fnTable P)[BLOCKTIMESTAMP]? = some (some fnBlockTimestamp) ∧
    (∀ f g, (fnTable P)[NOW]? = some (some f) → (fnTable P)[BLOCKTIMESTAMP]? = some (some g) →
      ∀ (ctx : Context) (ops : List Operand) (n : Nat), f ctx ops n = g ctx ops n) := by
  have hnow : (fnTable P)[NOW]? = some (some fnBlockTimestamp) := by
    rw [fnTable_eq]; rfl
  have hts : (fnTable P)[BLOCKTIMESTAMP]? = some (some fnBlockTimestamp) := by
    rw [fnTable_eq]; rfl
  refine ⟨rfl, by rw [fnTable_eq]; rfl, ?_, hnow, hts, ?_⟩
  · intro id hid
    rw [fnTable_eq]
    match id, hid with
    | 0, _ => exact ⟨_, rfl⟩
    | 1, _ => exact ⟨_, rfl⟩
    | 2, _ => exact ⟨_, rfl⟩
    | 3, _ => exact ⟨_, rfl⟩
    | 4, _ => exact ⟨_, rfl⟩
    | 5, _ => exact ⟨_, rfl⟩
    | 6, _ => exact ⟨_, rfl⟩
    | 7, _ => exact ⟨_, rfl⟩
    | 8, _ => exact ⟨_, rfl⟩
    | 9, _ => exact ⟨_, rfl⟩
    | k + 10, h => exact absurd h (by omega)
  · intro f g hf hg ctx ops n
    rw [hnow] at hf
    rw [hts] at hg
    have hf' : fnBlockTimestamp = f := by simpa using hf
    have hg' : fnBlockTimestamp = g := by simpa using hg
    rw [← hf', ← hg']

/-- C13 for a sample provider: the table holds the same entry under `NOW`
and under `BLOCKTIMESTAMP`. -/
theorem fnTable_complete_witness :
    (fnTable sampleProvider)[NOW]? = (fnTable sampleProvider)[BLOCKTIMESTAMP]? :=
  (fnTable_complete sampleProvider).2.2.2.1.trans
    (fnTable_complete sampleProvider).2.2.2.2.1.symm

theorem fnBlockHash_ctx (ctx : Context) (ops : List Operand) (n : Nat) (r : FnReturn)
    (h : fnBlockHash ctx ops n = some r) : r.ctx = ctx := by
  match ops with
  | [] => injection h with h; rw [← h]
  | _ :: _ :: _ => injection h with h; rw [← h]
  | [op] =>
    cases hI : op.IsImmediate with
    | false =>
      rw [fnBlockHash_column ctx op n hI, Option.map_eq_some'] at h
      obtain ⟨q, -, rfl⟩ := h
      rfl
    | true =>
      cases hrow : op.Data[0]? with
      | none => rw [fnBlockHash_immediate_no_row ctx op n hI (Or.inl hrow)] at h; cases h
      | some row =>
        cases hx : row[0]? with
        | none =>
          rw [fnBlockHash_immediate_no_row ctx op n hI (Or.inr ⟨row, hrow, hx⟩)] at h
          cases h
        | some x =>
          cases he : (evalBlockHash ctx x.Value (Decimal.NewFromBigInt ctx.BlockNumber 0)).2 with
          | none =>
            rw [fnBlockHash_immediate_ok ctx op n hI row x hrow hx he] at h
            injection h with h
            rw [← h]
          | some e =>
            rw [fnBlockHash_immediate_error ctx op n hI row x hrow hx e he] at h
            injection h with h
            rw [← h]

theorem randFn_iterate_frame (P : Provider) (nonce : List Byte) (vType : DataType) (k : Nat) :
    ∀ s : RandState,
      ((fun t => (randFn P nonce vType t).2)^[k] s).ctx
        = { s.ctx with
            RandCallIndex := ((fun t => (randFn P nonce vType t).2)^[k] s).ctx.RandCallIndex } := by
  induction k with
  | zero => intro s; rfl
  | succ k ih =>
    intro s
    have h := ih (randFn P nonce vType s).2
    simp only [Function.iterate_succ, Function.comp]
    rw [h]
    rfl

theorem ctx_of_eq (g : fn) (ctx : Context) (ops : List Operand) (n : Nat) (res : Operand)
    (r : FnReturn) (hg : g ctx ops n = some ⟨some res, none, ctx⟩) (hr : g ctx ops n = some r) :
    r.ctx = ctx := by
  rw [hg] at hr
  injection hr with hr
  rw [← hr]

/-- C15: every evaluator of the table other than the one for `RAND`
returns the context it was given, `fnBlockHash` also when it returns an
error, and the evaluator for `RAND` returns a context that differs from
the one it was given in `RandCallIndex` at most. -/
theorem evaluators_frame (P : Provider) (id : Nat) (f : fn)
    (hf : (fnTable P)[id]? = some (some f)) (ctx : Context) (ops : List Operand) (n : Nat)
    (r : FnReturn) (hr : f ctx ops n = some r) :
    (id ≠ RAND → r.ctx = ctx) ∧
      r.ctx = { ctx with RandCallIndex := r.ctx.RandCallIndex } := by
  have key : ∀ c : Context, r.ctx = c → r.ctx = { c with RandCallIndex := r.ctx.RandCallIndex } := by
    intro c hc
    rw [hc]
  rcases fnTable_cases P id f hf with h | h | h | h | h | h | h | h | h | h <;>
    obtain ⟨rfl, rfl⟩ := h
  · have h := fnBlockHash_ctx ctx ops n r hr
    exact ⟨fun _ => h, key ctx h⟩
  · have h := ctx_of_eq _ ctx ops n _ r (fnBlockNumber_eq ctx ops n) hr
    exact ⟨fun _ => h, key ctx h⟩
  · have h := ctx_of_eq _ ctx ops n _ r (fnBlockTimestamp_eq ctx ops n) hr
    exact ⟨fun _ => h, key ctx h⟩
  · have h := ctx_of_eq _ ctx ops n _ r (fnBlockCoinBase_eq ctx ops n) hr
    exact ⟨fun _ => h, key ctx h⟩
  · have h := ctx_of_eq _ ctx ops n _ r (fnBlockGasLimit_eq ctx ops n) hr
    exact ⟨fun _ => h, key ctx h⟩
  · have h := ctx_of_eq _ ctx ops n _ r (fnMsgSender_eq ctx ops n) hr
    exact ⟨fun _ => h, key ctx h⟩
  · have h := ctx_of_eq _ ctx ops n _ r (fnMsgData_eq ctx ops n) hr
    exact ⟨fun _ => h, key ctx h⟩
  · have h := ctx_of_eq _ ctx ops n _ r (fnTxOrigin_eq ctx ops n) hr
    exact ⟨fun _ => h, key ctx h⟩
  · have h := ctx_of_eq _ ctx ops n _ r (fnBlockTimestamp_eq ctx ops n) hr
    exact ⟨fun _ => h, key ctx h⟩
  · refine ⟨fun h => absurd rfl h, ?_⟩
    rw [fnRand_eq, produceRows_state] at hr
    injection hr with hr
    rw [← hr]
    exact randFn_iterate_frame P _ _ n _

/-- C15 on the error path of `fnBlockHash` (height 10, the column of
heights 5 and -1): the context returned with the error is the one given. -/
theorem evaluators_frame_witness :
    (FnReturn.mk
        (some { Meta := [ComposeDataType .FixedBytes 3],
                Data := [[{ Bytes := List.replicate 32 1 }], []] })
        (some .NumericConversion) (sampleContext 10 0 0)).ctx = sampleContext 10 0 0 :=
  (evaluators_frame sampleProvider BLOCKHASH fnBlockHash rfl (sampleContext 10 0 0)
    [sampleColumn] 2 _ rfl).1 (by decide)

/-! ## The generator strategy -/

theorem succ_iterate (i a : Nat) : (fun c : Nat => c + 1)^[i] a = a + i := by
  induction i generalizing a with
  | zero => rfl
  | succ i ih => rw [Function.iterate_succ, Function.comp, ih]; omega

/-- C16: `assignFuncResult` returns `n` rows under the given `Meta`; row
`i` is the one-element tuple of the value the producer returns when it is
called on the state that `i` earlier calls have left, and the state
returned is the one `n` successive calls leave (the initial state when
`n = 0`). For a producer that counts its calls, the count ends at `n` and
row `i` holds the value of call number `i + 1`. -/
theorem assignFuncResult_invocations {σ : Type} (meta : List DataType) (f : σ → Raw × σ)
    (n : Nat) (s : σ) :
    (assignFuncResult meta f n s).1.Meta = meta ∧
    (assignFuncResult meta f n s).1.Data.length = n ∧
    (∀ i, i < n → (assignFuncResult meta f n s).1.Data[i]?
      = some [(f ((fun t => (f t).2)^[i] s)).1]) ∧
    (assignFuncResult meta f n s).2 = (fun t => (f t).2)^[n] s ∧
    (assignFuncResult meta f 0 s).2 = s ∧
    (∀ g : Nat → Raw,
      (assignFuncResult meta (fun c => (g c, c + 1)) n 0).2 = n ∧
      ∀ i, i < n →
        (assignFuncResult meta (fun c => (g c, c + 1)) n 0).1.Data[i]? = some [g i]) := by
  refine ⟨?_, ?_, ?_, ?_, ?_, ?_⟩
  · rw [assignFuncResult_eq]
  · rw [assignFuncResult_eq]; exact produceRows_length f n s
  · intro i hi
    rw [assignFuncResult_eq]
    exact produceRows_getElem f n s i hi
  · rw [assignFuncResult_eq]; exact produceRows_state f n s
  · rfl
  · intro g
    constructor
    · rw [assignFuncResult_eq, produceRows_state]
      simp only [succ_iterate, Nat.zero_add]
    · intro i hi
      rw [assignFuncResult_eq]
      simp only []
      rw [produceRows_getElem _ n _ i hi]
      simp only [succ_iterate, Nat.zero_add]

/-- C16 for a producer that counts its calls and three rows: the count
ends at 3. -/
theorem assignFuncResult_invocations_witness :
    (assignFuncResult [] (fun c : Nat => (({ Value := ⟨c, 0⟩ } : Raw), c + 1)) 3 0).2 = 3 :=
  ((assignFuncResult_invocations [] (fun c : Nat => (({ Value := ⟨c, 0⟩ } : Raw), c + 1)) 3
    0).2.2.2.2.2 (fun c => { Value := ⟨c, 0⟩ })).1

/-! ## BLOCKHASH: the declared type -/

theorem evalBlockHash_bytes_length (ctx : Context) (num cur : Decimal) :
    (evalBlockHash ctx num cur).1.Bytes.length = 32 := by
  by_cases hw : cur.toRat - 257 < num.toRat ∧ num.toRat < cur.toRat
  · cases hconv : DecimalToUint64 num with
    | error e => rw [evalBlockHash_of_window_error ctx num cur e hw hconv]; rfl
    | ok m =>
      rw [evalBlockHash_of_window_ok ctx num cur m hw hconv]
      exact (ctx.GetHash m).size
  · rw [evalBlockHash_of_not_window ctx num cur hw]; rfl

/-- Every successful `fnBlockHash` result declares the type tag
`FixedBytes`/3, whose byte width under the convention is 4, while every
value of every row holds 32 bytes. -/
theorem fnBlockHash_declared_width (ctx : Context) (ops : List Operand) (n : Nat)
    (r : FnReturn) (op : Operand) (h : fnBlockHash ctx ops n = some r) (herr : r.err = none)
    (hop : r.result = some op) :
    op.Meta = [ComposeDataType .FixedBytes 3] ∧ op.Meta.map DataType.byteWidth = [4] ∧
      ∀ row ∈ op.Data, ∀ x ∈ row, x.Bytes.length = 32 := by
  match ops with
  | [] => injection h with h; rw [← h] at herr; cases herr
  | _ :: _ :: _ => injection h with h; rw [← h] at herr; cases herr
  | [o] =>
    cases hI : o.IsImmediate with
    | false =>
      rw [fnBlockHash_column ctx o n hI, Option.map_eq_some'] at h
      obtain ⟨q, hq, rfl⟩ := h
      simp only at herr
      simp only [Option.some.injEq] at hop
      subst hop
      obtain ⟨hlen, hrows⟩ := blockHashRows_none ctx _ _ n 0 q.1 (by rw [hq, ← herr])
      refine ⟨rfl, rfl, ?_⟩
      intro row hrow x hx
      simp only [hlen, Nat.sub_self, List.replicate_zero, List.append_nil] at hrow
      obtain ⟨j, hj, hjrow⟩ := List.getElem_of_mem hrow
      obtain ⟨row2, y, _, _, _, h4⟩ := hrows j (by omega)
      rw [List.getElem?_eq_getElem hj, hjrow] at h4
      injection h4 with h4
      rw [h4, List.mem_singleton] at hx
      rw [hx]
      exact evalBlockHash_bytes_length ctx _ _
    | true =>
      cases hrow : o.Data[0]? with
      | none => rw [fnBlockHash_immediate_no_row ctx o n hI (Or.inl hrow)] at h; cases h
      | some row =>
        cases hx : row[0]? with
        | none =>
          rw [fnBlockHash_immediate_no_row ctx o n hI (Or.inr ⟨row, hrow, hx⟩)] at h
          cases h
        | some x =>
          cases he : (evalBlockHash ctx x.Value (Decimal.NewFromBigInt ctx.BlockNumber 0)).2 with
          | none =>
            rw [fnBlockHash_immediate_ok ctx o n hI row x hrow hx he] at h
            injection h with h
            rw [← h] at hop
            simp only [Option.some.injEq] at hop
            subst hop
            refine ⟨rfl, rfl, ?_⟩
            intro row2 hrow2 y hy
            rw [List.eq_of_mem_replicate hrow2, List.mem_singleton] at hy
            rw [hy]
            exact evalBlockHash_bytes_length ctx _ _
          | some e =>
            rw [fnBlockHash_immediate_error ctx o n hI row x hrow hx e he] at h
            injection h with h
            rw [← h] at herr
            cases herr

/-- C17, the code at a failing input: at height 10, for the column of
heights 5 and 20, `fnBlockHash` succeeds with two rows of 32 bytes each
under the declared type `FixedBytes`/3, whose byte width under the
convention (`Uint`/7 is 8 bytes wide, `Uint`/31 is 32 bytes wide) is 4. -/
theorem fnBlockHash_declared_width_mismatch :
    (fnBlockHash (sampleContext 10 0 0) [sampleColumnOk] 2).map
        (fun r => (r.err, r.result.map (fun o =>
          (o.Meta, o.Meta.map DataType.byteWidth,
            o.Data.map (fun row => row.map (fun x => x.Bytes.length))))))
      = some (none, some ([ComposeDataType .FixedBytes 3], [4], [[32], [32]])) ∧
    (ComposeDataType .Uint 7).byteWidth = 8 ∧ (ComposeDataType .Uint 31).byteWidth = 32 := by
  refine ⟨by rfl, rfl, rfl⟩

/-! ## BLOCKHASH: when the call fails, and what it reads -/

theorem evalBlockHash_err_iff (ctx : Context) (num cur : Decimal) :
    (∃ e, (evalBlockHash ctx num cur).2 = some e) ↔
      ((cur.toRat - 257 < num.toRat ∧ num.toRat < cur.toRat) ∧
        ¬ ∃ m : Nat, m < 2 ^ 64 ∧ num.toRat = (m : ℚ)) := by
  by_cases hw : cur.toRat - 257 < num.toRat ∧ num.toRat < cur.toRat
  · cases hconv : DecimalToUint64 num with
    | error e =>
      rw [evalBlockHash_of_window_error ctx num cur e hw hconv]
      refine ⟨fun _ => ⟨hw, ?_⟩, fun _ => ⟨e, rfl⟩⟩
      rintro ⟨m, hm⟩
      rw [(DecimalToUint64_ok_iff num m).mpr hm] at hconv
      cases hconv
    | ok m =>
      rw [evalBlockHash_of_window_ok ctx num cur m hw hconv]
      constructor
      · rintro ⟨e, he⟩; cases he
      · rintro ⟨_, hno⟩
        exact absurd ⟨m, (DecimalToUint64_ok_iff num m).mp hconv⟩ hno
  · rw [evalBlockHash_of_not_window ctx num cur hw]
    constructor
    · rintro ⟨e, he⟩; cases he
    · rintro ⟨h, _⟩; exact absurd h hw

/-- C18: `fnBlockHash` with one immediate operand holding the height `x`
returns an error if and only if `x` lies strictly inside the window
`cur - 257 < x < cur` and is no `uint64` value, whatever the requested row
count `n` (also `n = 0`); the result returned with the error is nil; and
for `0 ≤ cur < 257` a negative height above `cur - 257` gives an error. -/
theorem fnBlockHash_immediate_fails_iff (ctx : Context) (op : Operand) (n : Nat) (row : Tuple)
    (x : Raw) (hI : op.IsImmediate = true) (hrow : op.Data[0]? = some row)
    (hx : row[0]? = some x) :
    ((∃ r e, fnBlockHash ctx [op] n = some r ∧ r.err = some e) ↔
      (((ctx.BlockNumber : ℚ) - 257 < x.Value.toRat ∧ x.Value.toRat < (ctx.BlockNumber : ℚ)) ∧
        ¬ ∃ m : Nat, m < 2 ^ 64 ∧ x.Value.toRat = (m : ℚ))) ∧
    (∀ r e, fnBlockHash ctx [op] n = some r → r.err = some e → r.result = none) ∧
    (0 ≤ ctx.BlockNumber → ctx.BlockNumber < 257 →
      (ctx.BlockNumber : ℚ) - 257 < x.Value.toRat → x.Value.toRat < 0 →
      ∃ r e, fnBlockHash ctx [op] n = some r ∧ r.err = some e) := by
  have hiff : (∃ r e, fnBlockHash ctx [op] n = some r ∧ r.err = some e) ↔
      ∃ e, (evalBlockHash ctx x.Value (Decimal.NewFromBigInt ctx.BlockNumber 0)).2 = some e := by
    cases he : (evalBlockHash ctx x.Value (Decimal.NewFromBigInt ctx.BlockNumber 0)).2 with
    | none =>
      rw [fnBlockHash_immediate_ok ctx op n hI row x hrow hx he]
      constructor
      · rintro ⟨r, e, hr, hre⟩
        injection hr with hr
        rw [← hr] at hre
        cases hre
      · rintro ⟨e, he2⟩; cases he2
    | some e =>
      rw [fnBlockHash_immediate_error ctx op n hI row x hrow hx e he]
      exact ⟨fun _ => ⟨e, rfl⟩, fun _ => ⟨_, e, rfl, rfl⟩⟩
  have hmain := hiff.trans
    (evalBlockHash_err_iff ctx x.Value (Decimal.NewFromBigInt ctx.BlockNumber 0))
  rw [Decimal.NewFromBigInt_toRat] at hmain
  refine ⟨hmain, ?_, ?_⟩
  · intro r e hr hre
    cases he : (evalBlockHash ctx x.Value (Decimal.NewFromBigInt ctx.BlockNumber 0)).2 with
    | none =>
      rw [fnBlockHash_immediate_ok ctx op n hI row x hrow hx he] at hr
      injection hr with hr
      rw [← hr] at hre
      cases hre
    | some e2 =>
      rw [fnBlockHash_immediate_error ctx op n hI row x hrow hx e2 he] at hr
      injection hr with hr
      rw [← hr]
  · intro h0 _ hlo hneg
    refine hmain.mpr ⟨⟨hlo, ?_⟩, ?_⟩
    · have : (0 : ℚ) ≤ (ctx.BlockNumber : ℚ) := by exact_mod_cast h0
      linarith
    · rintro ⟨m, -, hm⟩
      have : (0 : ℚ) ≤ (m : ℚ) := Nat.cast_nonneg m
      linarith

/-- C18 at height 10 for the immediate height -1 and zero requested rows:
the call returns an error. -/
theorem fnBlockHash_immediate_fails_iff_witness :
    ∃ r e, fnBlockHash (sampleContext 10 0 0) [sampleImmediateNegative] 0 = some r ∧
      r.err = some e :=
  (fnBlockHash_immediate_fails_iff (sampleContext 10 0 0) sampleImmediateNegative 0
    [{ Value := ⟨-1, 0⟩ }] { Value := ⟨-1, 0⟩ } rfl rfl rfl).2.2 (by decide) (by decide)
    (by norm_num [Decimal.toRat, sampleContext]) (by norm_num [Decimal.toRat])

theorem heightAt_eq_some (src : List Tuple) (i : Nat) (v : Decimal) :
    heightAt src i = some v ↔ ∃ row x, src[i]? = some row ∧ row[0]? = some x ∧ x.Value = v := by
  unfold heightAt
  constructor
  · intro h
    cases hrow : src[i]? with
    | none => rw [hrow] at h; cases h
    | some row =>
      rw [hrow] at h
      cases hx : row[0]? with
      | none => simp [hx] at h
      | some x =>
        simp only [Option.some_bind, hx, Option.map_some', Option.some.injEq] at h
        exact ⟨row, x, rfl, hx, h⟩
  · rintro ⟨row, x, h1, h2, h3⟩
    simp [h1, h2, h3]

theorem blockHashRows_step (ctx : Context) (src : List Tuple) (cNum : Decimal) (k i : Nat) :
    blockHashRows ctx src cNum (k + 1) i
      = match heightAt src i with
        | none => none
        | some v =>
          match (evalBlockHash ctx v cNum).2 with
          | some e => some ([], some e)
          | none => (blockHashRows ctx src cNum k (i + 1)).map
              (fun q => ([(evalBlockHash ctx v cNum).1] :: q.1, q.2)) := by
  simp only [blockHashRows, heightAt]
  cases src[i]? with
  | none => rfl
  | some row =>
    cases hx : row[0]? with
    | none => simp [hx]
    | some x => simp [hx]

theorem blockHashRows_congr (ctx : Context) (src1 src2 : List Tuple) (cNum : Decimal)
    (k : Nat) :
    ∀ i, (∀ j, j < k → heightAt src1 (i + j) = heightAt src2 (i + j)) →
      blockHashRows ctx src1 cNum k i = blockHashRows ctx src2 cNum k i := by
  induction k with
  | zero => intro i _; rfl
  | succ k ih =>
    intro i h
    have h0 := h 0 (Nat.succ_pos k)
    rw [Nat.add_zero] at h0
    rw [blockHashRows_step, blockHashRows_step, h0,
      ih (i + 1) (fun j hj => by
        have := h (j + 1) (by omega)
        rwa [Nat.add_assoc, Nat.add_comm 1 j])]

theorem blockHashRows_isSome (ctx : Context) (src : List Tuple) (cNum : Decimal) (k : Nat) :
    ∀ i, (∀ j, j < k → ∃ row x, src[i + j]? = some row ∧ row[0]? = some x) →
      blockHashRows ctx src cNum k i ≠ none := by
  induction k with
  | zero => intro i _ h; cases h
  | succ k ih =>
    intro i h
    obtain ⟨row, x, h1, h2⟩ := h 0 (Nat.succ_pos k)
    rw [Nat.add_zero] at h1
    have hv : heightAt src i = some x.Value := (heightAt_eq_some src i _).mpr ⟨row, x, h1, h2, rfl⟩
    rw [blockHashRows_step, hv]
    simp only []
    cases (evalBlockHash ctx x.Value cNum).2 with
    | some e => intro hn; cases hn
    | none =>
      have hrec := ih (i + 1) (fun j hj => by
        have := h (j + 1) (by omega)
        rwa [Nat.add_assoc, Nat.add_comm 1 j])
      simp only []
      intro hn
      rw [Option.map_eq_none'] at hn
      exact hrec hn

theorem fnBlockHash_immediate_congr (ctx : Context) (op op2 : Operand) (n : Nat)
    (h1 : op.IsImmediate = true) (h2 : op2.IsImmediate = true)
    (h : heightAt op.Data 0 = heightAt op2.Data 0) :
    fnBlockHash ctx [op] n = fnBlockHash ctx [op2] n := by
  have key : ∀ o : Operand, o.IsImmediate = true → heightAt o.Data 0 = none →
      fnBlockHash ctx [o] n = none := by
    intro o ho hnone
    apply fnBlockHash_immediate_no_row ctx o n ho
    cases hrow : o.Data[0]? with
    | none => exact Or.inl rfl
    | some row =>
      refine Or.inr ⟨row, rfl, ?_⟩
      cases hx : row[0]? with
      | none => rfl
      | some x =>
        have := (heightAt_eq_some o.Data 0 x.Value).mpr ⟨row, x, hrow, hx, rfl⟩
        rw [hnone] at this
        cases this
  cases hv : heightAt op.Data 0 with
  | none => rw [key op h1 hv, key op2 h2 (h ▸ hv)]
  | some v =>
    obtain ⟨row, x, a1, a2, a3⟩ := (heightAt_eq_some op.Data 0 v).mp hv
    obtain ⟨row2, x2, b1, b2, b3⟩ := (heightAt_eq_some op2.Data 0 v).mp (h ▸ hv)
    cases he : (evalBlockHash ctx v (Decimal.NewFromBigInt ctx.BlockNumber 0)).2 with
    | none =>
      rw [fnBlockHash_immediate_ok ctx op n h1 row x a1 a2 (by rw [a3]; exact he),
        fnBlockHash_immediate_ok ctx op2 n h2 row2 x2 b1 b2 (by rw [b3]; exact he), a3, b3]
    | some e =>
      rw [fnBlockHash_immediate_error ctx op n h1 row x a1 a2 e (by rw [a3]; exact he),
        fnBlockHash_immediate_error ctx op2 n h2 row2 x2 b1 b2 e (by rw [b3]; exact he)]

/-- C19: if the single operand is immediate and has a first row of width
at least 1, or is not immediate and has at least `n` rows of width at least
1, no index expression of `fnBlockHash` fails; the immediate branch reads
nothing but `Data[0][0].Value` and the other branch nothing but
`Data[i][0].Value` for `i < n` (operands agreeing there give the same
return), and a successful call of the other branch has read each of the
rows `0 … n - 1`. -/
theorem fnBlockHash_index_safety (ctx : Context) (op : Operand) (n : Nat) :
    (op.IsImmediate = true → (∃ row x, op.Data[0]? = some row ∧ row[0]? = some x) →
      fnBlockHash ctx [op] n ≠ none) ∧
    (op.IsImmediate = false →
      (∀ i, i < n → ∃ row x, op.Data[i]? = some row ∧ row[0]? = some x) →
      fnBlockHash ctx [op] n ≠ none) ∧
    (∀ op2 : Operand, op.IsImmediate = true → op2.IsImmediate = true →
      heightAt op.Data 0 = heightAt op2.Data 0 →
      fnBlockHash ctx [op] n = fnBlockHash ctx [op2] n) ∧
    (∀ op2 : Operand, op.IsImmediate = false → op2.IsImmediate = false →
      (∀ i, i < n → heightAt op.Data i = heightAt op2.Data i) →
      fnBlockHash ctx [op] n = fnBlockHash ctx [op2] n) ∧
    (op.IsImmediate = false → ∀ r, fnBlockHash ctx [op] n = some r → r.err = none →
      ∀ i, i < n → ∃ row x, op.Data[i]? = some row ∧ row[0]? = some x) := by
  refine ⟨?_, ?_, ?_, ?_, ?_⟩
  · rintro hI ⟨row, x, hrow, hx⟩
    cases he : (evalBlockHash ctx x.Value (Decimal.NewFromBigInt ctx.BlockNumber 0)).2 with
    | none =>
      rw [fnBlockHash_immediate_ok ctx op n hI row x hrow hx he]
      exact Option.some_ne_none _
    | some e =>
      rw [fnBlockHash_immediate_error ctx op n hI row x hrow hx e he]
      exact Option.some_ne_none _
  · intro hI hrows
    rw [fnBlockHash_column ctx op n hI]
    intro hn
    rw [Option.map_eq_none'] at hn
    exact blockHashRows_isSome ctx op.Data _ n 0
      (fun j hj => by rw [Nat.zero_add]; exact hrows j hj) hn
  · intro op2 h1 h2 h
    exact fnBlockHash_immediate_congr ctx op op2 n h1 h2 h
  · intro op2 h1 h2 h
    rw [fnBlockHash_column ctx op n h1, fnBlockHash_column ctx op2 n h2,
      blockHashRows_congr ctx op.Data op2.Data _ n 0
        (fun j hj => by rw [Nat.zero_add]; exact h j hj)]
  · intro hI r hr herr i hi
    rw [fnBlockHash_column ctx op n hI, Option.map_eq_some'] at hr
    obtain ⟨q, hq, rfl⟩ := hr
    simp only at herr
    obtain ⟨-, hrows⟩ := blockHashRows_none ctx _ _ n 0 q.1 (by rw [hq, ← herr])
    obtain ⟨row, x, h1, h2, -, -⟩ := hrows i hi
    exact ⟨row, x, by simpa using h1, h2⟩

/-- C19 at height 10: the column of heights 5 and 20 has the two rows that
two requested rows need, and the immediate height -1 has its one row; no
index expression fails. -/
theorem fnBlockHash_index_safety_witness :
    fnBlockHash (sampleContext 10 0 0) [sampleColumnOk] 2 ≠ none ∧
      fnBlockHash (sampleContext 10 0 0) [sampleImmediateNegative] 7 ≠ none :=
  ⟨(fnBlockHash_index_safety (sampleContext 10 0 0) sampleColumnOk 2).2.1 rfl
      (fun i hi => by
        match i, hi with
        | 0, _ => exact ⟨_, _, rfl, rfl⟩
        | 1, _ => exact ⟨_, _, rfl, rfl⟩),
    (fnBlockHash_index_safety (sampleContext 10 0 0) sampleImmediateNegative 7).1 rfl
      ⟨_, _, rfl, rfl⟩⟩

/-! ## RAND: distinct counter values, distinct hashed bytes -/

theorem uvarintLen_le (k : Nat) : ∀ x, uvarintLen k x ≤ k := by
  induction k with
  | zero => intro x; exact Nat.le_refl _
  | succ k ih =>
    intro x
    simp only [uvarintLen]
    split_ifs
    · have := ih (x >>> 7); omega
    · omega

/-- Reading back what `binary.PutUvarint` wrote gives the number written,
whatever the buffer held before. -/
theorem uvarintReadLoop_put (k : Nat) :
    ∀ (buf : List Byte) (i x : Nat), i + k ≤ buf.length → x < 128 ^ k →
      uvarintReadLoop k (putUvarintLoop k buf i x) i = x := by
  induction k with
  | zero =>
    intro buf i x _ hx
    simp only [uvarintReadLoop]
    simp only [Nat.pow_zero] at hx
    omega
  | succ k ih =>
    intro buf i x hlen hx
    by_cases h128 : x ≥ 0x80
    · have hb : x % 256 ||| 0x80 = x % 128 + 128 := by
        rw [lor_high_bit _ (Nat.mod_lt _ (by norm_num))]
        omega
      have hs : x >>> 7 = x / 128 := by rw [Nat.shiftRight_eq_div_pow]
      have hget : (putUvarintLoop (k + 1) buf i x)[i]? = some (x % 128 + 128) := by
        simp only [putUvarintLoop, if_pos h128, hb]
        rw [putUvarintLoop_frame k _ (i + 1) _ i (Or.inl (Nat.lt_succ_self i)),
          List.getElem?_set_self (by omega)]
      have hrec : uvarintReadLoop k (putUvarintLoop (k + 1) buf i x) (i + 1) = x / 128 := by
        simp only [putUvarintLoop, if_pos h128, hb, hs]
        apply ih
        · rw [List.length_set]; omega
        · rw [Nat.pow_succ] at hx
          exact Nat.div_lt_of_lt_mul (by rw [Nat.mul_comm]; exact hx)
      have hno : ¬ (x % 128 + 128 < 0x80) := by omega
      simp only [uvarintReadLoop, hget, hrec, if_neg hno]
      omega
    · have hget : (putUvarintLoop (k + 1) buf i x)[i]? = some x := by
        simp only [putUvarintLoop, if_neg h128]
        rw [List.getElem?_set_self (by omega), Nat.mod_eq_of_lt (by omega)]
      have hlt : x < 0x80 := by omega
      simp only [uvarintReadLoop, hget, if_pos hlt]

theorem PutUvarint_injective (buf1 buf2 : List Byte) (x y : Nat)
    (h1 : buf1.length = MaxVarintLen64) (h2 : buf2.length = MaxVarintLen64)
    (hx : x < 2 ^ 64) (hy : y < 2 ^ 64) (h : PutUvarint buf1 x = PutUvarint buf2 y) :
    x = y := by
  have hp : (2 : Nat) ^ 64 ≤ 128 ^ MaxVarintLen64 := by decide
  have ha := uvarintReadLoop_put MaxVarintLen64 buf1 0 x (by omega) (by omega)
  have hb := uvarintReadLoop_put MaxVarintLen64 buf2 0 y (by omega) (by omega)
  unfold PutUvarint at h
  rw [h] at ha
  rw [← ha, hb]

theorem usedIndexAfter_length (k : Nat) :
    ∀ (buf : List Byte) (c : Nat), (usedIndexAfter buf c k).length = buf.length := by
  induction k with
  | zero => intro buf c; rfl
  | succ k ih =>
    intro buf c
    rw [usedIndexAfter, ih, PutUvarint, putUvarintLoop_length]

theorem randFn_hashed (P : Provider) (nonce : List Byte) (vType : DataType) (s : RandState) :
    (randFn P nonce vType s).1
      = { Value := (P.DecimalDecode vType (P.keccak (randHashed nonce s))).1 } := rfl

/-- Two invocations of the producer under the same seed, origin and nonce
that hash the same bytes consume the same counter value. -/
theorem randHashed_injective (ctx : Context) (nonce : List Byte) (c1 k1 c2 k2 : Nat)
    (h : randHashed nonce (randRowState ctx c1 k1) = randHashed nonce (randRowState ctx c2 k2)) :
    (randRowState ctx c1 k1).ctx.RandCallIndex = (randRowState ctx c2 k2).ctx.RandCallIndex := by
  simp only [randHashed, randRowState, randHashInput, List.flatten, List.append_nil,
    List.append_cancel_left_eq] at h
  simp only [randRowState]
  exact PutUvarint_injective _ _ _ _
    (by rw [usedIndexAfter_length, List.length_replicate])
    (by rw [usedIndexAfter_length, List.length_replicate])
    (Nat.mod_lt _ (by norm_num)) (Nat.mod_lt _ (by norm_num)) h

theorem take_sum_succ (ns : List Nat) :
    ∀ (j m : Nat), ns[j]? = some m → (ns.take (j + 1)).sum = (ns.take j).sum + m := by
  induction ns with
  | nil => intro j m h; simp at h
  | cons n ns ih =>
    intro j m h
    cases j with
    | zero =>
      simp only [List.getElem?_cons_zero, Option.some.injEq] at h
      simp [h]
    | succ j =>
      simp only [List.getElem?_cons_succ] at h
      simp only [List.take_succ_cons, List.sum_cons, ih j m h]
      omega

theorem take_sum_mono (ns : List Nat) :
    ∀ (a b : Nat), a ≤ b → (ns.take a).sum ≤ (ns.take b).sum := by
  induction ns with
  | nil => intro a b _; simp
  | cons n ns ih =>
    intro a b hab
    cases a with
    | zero => simp
    | succ a =>
      cases b with
      | zero => omega
      | succ b =>
        simp only [List.take_succ_cons, List.sum_cons]
        have := ih a b (by omega)
        omega

theorem take_sum_le (ns : List Nat) (a : Nat) : (ns.take a).sum ≤ ns.sum := by
  have h := take_sum_mono ns a (max a ns.length) (Nat.le_max_left _ _)
  rwa [List.take_of_length_le (Nat.le_max_right _ _)] at h

/-- The global position of row `k` of call `j` in a sequence of calls with
row counts `ns`: positions of different rows are different, and all lie
below the total number of rows. -/
theorem row_offsets (ns : List Nat) (j k m j2 k2 m2 : Nat) (hj : ns[j]? = some m)
    (hk : k < m) (hj2 : ns[j2]? = some m2) (hk2 : k2 < m2) (hne : ¬ (j = j2 ∧ k = k2)) :
    (ns.take j).sum + k ≠ (ns.take j2).sum + k2 ∧ (ns.take j).sum + k < ns.sum := by
  have h1 := take_sum_succ ns j m hj
  have h2 := take_sum_succ ns j2 m2 hj2
  have hle := take_sum_le ns (j + 1)
  refine ⟨?_, by omega⟩
  rcases Nat.lt_trichotomy j j2 with h | h | h
  · have := take_sum_mono ns (j + 1) j2 h
    omega
  · subst h
    have : k ≠ k2 := fun hkk => hne ⟨rfl, hkk⟩
    omega
  · have := take_sum_mono ns (j2 + 1) j h
    omega

/-- The rows of call `j` of a sequence of `RAND` calls: the call runs on
the context whose counter the calls before it advanced by their row counts
and leaves the counter advanced by its own. -/
theorem fnRandCalls_rows (P : Provider) (ns : List Nat) :
    ∀ (ctx : Context) (j m : Nat), ctx.RandCallIndex < 2 ^ 64 → ns[j]? = some m →
      ∃ r res, (fnRandCalls P ctx ns)[j]? = some r ∧ r.err = none ∧ r.result = some res ∧
        r.ctx = { ctx with
          RandCallIndex := (ctx.RandCallIndex + (ns.take (j + 1)).sum) % 2 ^ 64 } ∧
        res.Data.length = m ∧
        ∀ k, k < m → res.Data[k]? =
          some [(randFn P
            (PutUvarint (List.replicate MaxVarintLen64 0) (ctx.Storage.GetNonce ctx.Origin))
            (ComposeDataType .Uint 31)
            (randRowState ctx ((ctx.RandCallIndex + (ns.take j).sum) % 2 ^ 64) k)).1] := by
  induction ns with
  | nil => intro ctx j m _ h; simp at h
  | cons n ns ih =>
    intro ctx j m hc hj
    obtain ⟨res0, h1, h2, h3⟩ := fnRand_rows P ctx [] n hc
    have hcalls : fnRandCalls P ctx (n :: ns)
        = ⟨some res0, none, { ctx with RandCallIndex := (ctx.RandCallIndex + n) % 2 ^ 64 }⟩
          :: fnRandCalls P { ctx with RandCallIndex := (ctx.RandCallIndex + n) % 2 ^ 64 }
              ns := by
      simp only [fnRandCalls, h1]
    cases j with
    | zero =>
      simp only [List.getElem?_cons_zero, Option.some.injEq] at hj
      subst hj
      refine ⟨⟨some res0, none, { ctx with RandCallIndex := (ctx.RandCallIndex + n) % 2 ^ 64 }⟩,
        res0, by rw [hcalls, List.getElem?_cons_zero], rfl, rfl, ?_, h2, ?_⟩
      · simp
      · intro k hk
        rw [h3 k hk]
        simp only [List.take_zero, List.sum_nil, Nat.add_zero, Nat.mod_eq_of_lt hc,
          randRowState]
    | succ j =>
      simp only [List.getElem?_cons_succ] at hj
      obtain ⟨r, res, a1, a2, a3, a4, a5, a6⟩ :=
        ih { ctx with RandCallIndex := (ctx.RandCallIndex + n) % 2 ^ 64 } j m
          (Nat.mod_lt _ (by norm_num)) hj
      refine ⟨r, res, by rw [hcalls, List.getElem?_cons_succ]; exact a1, a2, a3, ?_, a5, ?_⟩
      · rw [a4]
        simp only [List.take_succ_cons, List.sum_cons, Nat.mod_add_mod, Nat.add_assoc]
      · intro k hk
        rw [a6 k hk]
        simp only [List.take_succ_cons, List.sum_cons, Nat.mod_add_mod, Nat.add_assoc,
          randRowState]

/-- C14 (amended): in a sequence of `RAND` calls on one context that
produces at most `2 ^ 64` rows in total, any two different rows (row `k` of
call `j`, row `k2` of call `j2`) are produced by invocations that consume
different counter values, `c` plus the number of rows produced before the
row (modulo `2 ^ 64`), and that hash different byte strings under the same
seed, origin and nonce. -/
theorem fnRandCalls_distinct (P : Provider) (ctx : Context) (ns : List Nat)
    (hc : ctx.RandCallIndex < 2 ^ 64) (hsum : ns.sum ≤ 2 ^ 64) (j k m j2 k2 m2 : Nat)
    (hj : ns[j]? = some m) (hk : k < m) (hj2 : ns[j2]? = some m2) (hk2 : k2 < m2)
    (hne : ¬ (j = j2 ∧ k = k2)) :
    ∃ r res r2 res2,
      (fnRandCalls P ctx ns)[j]? = some r ∧ r.result = some res ∧
      (fnRandCalls P ctx ns)[j2]? = some r2 ∧ r2.result = some res2 ∧
      res.Data[k]? = some [(randFn P
        (PutUvarint (List.replicate MaxVarintLen64 0) (ctx.Storage.GetNonce ctx.Origin))
        (ComposeDataType .Uint 31)
        (randRowState ctx ((ctx.RandCallIndex + (ns.take j).sum) % 2 ^ 64) k)).1] ∧
      res2.Data[k2]? = some [(randFn P
        (PutUvarint (List.replicate MaxVarintLen64 0) (ctx.Storage.GetNonce ctx.Origin))
        (ComposeDataType .Uint 31)
        (randRowState ctx ((ctx.RandCallIndex + (ns.take j2).sum) % 2 ^ 64) k2)).1] ∧
      (randRowState ctx ((ctx.RandCallIndex + (ns.take j).sum) % 2 ^ 64) k).ctx.RandCallIndex
        = (ctx.RandCallIndex + ((ns.take j).sum + k)) % 2 ^ 64 ∧
      (randRowState ctx ((ctx.RandCallIndex + (ns.take j2).sum) % 2 ^ 64) k2).ctx.RandCallIndex
        = (ctx.RandCallIndex + ((ns.take j2).sum + k2)) % 2 ^ 64 ∧
      (randRowState ctx ((ctx.RandCallIndex + (ns.take j).sum) % 2 ^ 64) k).ctx.RandCallIndex
        ≠ (randRowState ctx ((ctx.RandCallIndex + (ns.take j2).sum) % 2 ^ 64)
            k2).ctx.RandCallIndex ∧
      randHashed
          (PutUvarint (List.replicate MaxVarintLen64 0) (ctx.Storage.GetNonce ctx.Origin))
          (randRowState ctx ((ctx.RandCallIndex + (ns.take j).sum) % 2 ^ 64) k)
        ≠ randHashed
          (PutUvarint (List.replicate MaxVarintLen64 0) (ctx.Storage.GetNonce ctx.Origin))
          (randRowState ctx ((ctx.RandCallIndex + (ns.take j2).sum) % 2 ^ 64) k2) := by
  obtain ⟨r, res, a1, -, a3, -, -, a6⟩ := fnRandCalls_rows P ns ctx j m hc hj
  obtain ⟨r2, res2, b1, -, b3, -, -, b6⟩ := fnRandCalls_rows P ns ctx j2 m2 hc hj2
  obtain ⟨hoff, hlt⟩ := row_offsets ns j k m j2 k2 m2 hj hk hj2 hk2 hne
  obtain ⟨-, hlt2⟩ := row_offsets ns j2 k2 m2 j k m hj2 hk2 hj hk (fun h => hne ⟨h.1.symm, h.2.symm⟩)
  have e1 : (randRowState ctx ((ctx.RandCallIndex + (ns.take j).sum) % 2 ^ 64)
      k).ctx.RandCallIndex = (ctx.RandCallIndex + ((ns.take j).sum + k)) % 2 ^ 64 := by
    simp only [randRowState, Nat.mod_add_mod, Nat.add_assoc]
  have e2 : (randRowState ctx ((ctx.RandCallIndex + (ns.take j2).sum) % 2 ^ 64)
      k2).ctx.RandCallIndex = (ctx.RandCallIndex + ((ns.take j2).sum + k2)) % 2 ^ 64 := by
    simp only [randRowState, Nat.mod_add_mod, Nat.add_assoc]
  have hcnt : (randRowState ctx ((ctx.RandCallIndex + (ns.take j).sum) % 2 ^ 64)
      k).ctx.RandCallIndex ≠ (randRowState ctx
        ((ctx.RandCallIndex + (ns.take j2).sum) % 2 ^ 64) k2).ctx.RandCallIndex := by
    rw [e1, e2]
    omega
  exact ⟨r, res, r2, res2, a1, a3, b1, b3, a6 k hk, b6 k2 hk2, e1, e2, hcnt,
    fun h => hcnt (randHashed_injective ctx _ _ _ _ _ h)⟩

/-- C14 for two calls of two rows and one row from the counter
`2 ^ 64 - 1`: the second row of the first call and the row of the second
call hash different bytes. -/
theorem fnRandCalls_distinct_witness :
    randHashed (PutUvarint (List.replicate MaxVarintLen64 0) 9)
        (randRowState (sampleContext 10 0 (2 ^ 64 - 1)) ((2 ^ 64 - 1 + 0) % 2 ^ 64) 1)
      ≠ randHashed (PutUvarint (List.replicate MaxVarintLen64 0) 9)
        (randRowState (sampleContext 10 0 (2 ^ 64 - 1)) ((2 ^ 64 - 1 + 2) % 2 ^ 64) 0) := by
  obtain ⟨_, _, _, _, _, _, _, _, _, _, _, _, _, h⟩ :=
    fnRandCalls_distinct sampleProvider (sampleContext 10 0 (2 ^ 64 - 1)) [2, 1] (by decide)
      (by decide) 0 1 2 1 0 1 rfl (by decide) rfl (by decide) (by decide)
  exact h

/-- A sequence of `a` calls of `b` rows each with `a * b = 2 ^ 64`,
followed by one more call: the first row of the first call and the first
row of the last call are produced by invocations on the same state. -/
theorem fnRandCalls_wrapped (P : Provider) (ctx : Context) (a b : Nat)
    (hc : ctx.RandCallIndex = 0) (hab : a * b = 2 ^ 64) :
    ∃ r res r2 res2,
      (fnRandCalls P ctx (List.replicate a b ++ [1]))[0]? = some r ∧ r.result = some res ∧
      (fnRandCalls P ctx (List.replicate a b ++ [1]))[a]? = some r2 ∧
      r2.result = some res2 ∧
      res.Data[0]? = some [(randFn P
        (PutUvarint (List.replicate MaxVarintLen64 0) (ctx.Storage.GetNonce ctx.Origin))
        (ComposeDataType .Uint 31) (randRowState ctx 0 0)).1] ∧
      res2.Data[0]? = some [(randFn P
        (PutUvarint (List.replicate MaxVarintLen64 0) (ctx.Storage.GetNonce ctx.Origin))
        (ComposeDataType .Uint 31) (randRowState ctx 0 0)).1] := by
  have ha : 0 < a := Nat.pos_of_ne_zero (fun h => by rw [h, Nat.zero_mul] at hab; cases hab)
  have hb : 0 < b := Nat.pos_of_ne_zero (fun h => by rw [h, Nat.mul_zero] at hab; cases hab)
  have h0 : (List.replicate a b ++ [1])[0]? = some b := by
    rw [List.getElem?_append_left (by rw [List.length_replicate]; exact ha),
      List.getElem?_replicate, if_pos ha]
  have h1 : (List.replicate a b ++ [1])[a]? = some 1 := by
    rw [List.getElem?_append_right (by rw [List.length_replicate]), List.length_replicate,
      Nat.sub_self]
    rfl
  have hs : ((List.replicate a b ++ [1]).take a).sum = 2 ^ 64 := by
    rw [List.take_left' (List.length_replicate a b), List.sum_replicate, smul_eq_mul, hab]
  have hclt : ctx.RandCallIndex < 2 ^ 64 := by rw [hc]; norm_num
  obtain ⟨r, res, a1, -, a3, -, -, a6⟩ :=
    fnRandCalls_rows P (List.replicate a b ++ [1]) ctx 0 b hclt h0
  obtain ⟨r2, res2, b1, -, b3, -, -, b6⟩ :=
    fnRandCalls_rows P (List.replicate a b ++ [1]) ctx a 1 hclt h1
  refine ⟨r, res, r2, res2, a1, a3, b1, b3, ?_, ?_⟩
  · rw [a6 0 hb, hc]
    rfl
  · rw [b6 0 Nat.one_pos, hs, hc]
    rfl

/-- C14 as stated fails for `2 ^ 40` calls of `2 ^ 24` rows each from the
counter 0, followed by one more call: the first row of the first call and
the first row of the last call both consume the counter value 0 and hash
the same bytes. -/
theorem fnRandCalls_distinct_counterexample :
    (∃ r res r2 res2,
      (fnRandCalls sampleProvider (sampleContext 10 0 0)
        (List.replicate (2 ^ 40) (2 ^ 24) ++ [1]))[0]? = some r ∧ r.result = some res ∧
      (fnRandCalls sampleProvider (sampleContext 10 0 0)
        (List.replicate (2 ^ 40) (2 ^ 24) ++ [1]))[2 ^ 40]? = some r2 ∧
      r2.result = some res2 ∧
      res.Data[0]? = some [(randFn sampleProvider
        (PutUvarint (List.replicate MaxVarintLen64 0) 9)
        (ComposeDataType .Uint 31) (randRowState (sampleContext 10 0 0) 0 0)).1] ∧
      res2.Data[0]? = some [(randFn sampleProvider
        (PutUvarint (List.replicate MaxVarintLen64 0) 9)
        (ComposeDataType .Uint 31) (randRowState (sampleContext 10 0 0) 0 0)).1]) ∧
    (randRowState (sampleContext 10 0 0) 0 0).ctx.RandCallIndex = 0 :=
  ⟨fnRandCalls_wrapped sampleProvider (sampleContext 10 0 0) (2 ^ 40) (2 ^ 24) rfl
    (by norm_num), rfl⟩

end Sqlvm
